import Mathlib

/-!
# Pika replication client: worker-pool dispatch and outbound sync requests

A shallow embedding of `src/pika_repl_client.cc`.

* The worker pool `bg_workers_` is a list of workers; the round-robin cursor
  `next_avail_` is a number.  Member functions that change the client take the
  client and return the new client.
* Undefined behaviour of the C++ code (remainder by zero in `GetHashIndex`,
  `bg_workers_[i]` with `i` out of range) is the result `none`.
* `size_t` arithmetic is taken modulo `SIZE_T_MOD = 2 ^ 64`; `int` values are integers
  between `INT_MIN` and `INT_MAX`.
* Collaborators whose code lives outside the file (the string hash `str_hash`,
  protobuf serialisation, the transport write, the port shift constant) are
  parameters.
-/

set_option autoImplicit false

namespace Pika

/-! ## Machine types -/

/-- Number of values of the C++ type `size_t`. -/
def SIZE_T_MOD : Nat := 2 ^ 64

/-- The C++ type `size_t`. -/
abbrev size_t : Type := Fin (2 ^ 64)

/-- The smallest value of the C++ type `int` (32 bits). -/
def INT_MIN : Int := -2 ^ 31

/-- The largest value of the C++ type `int` (32 bits). -/
def INT_MAX : Int := 2 ^ 31 - 1

/-- The number is a value of the C++ type `int`. -/
def IsInt32 (x : Int) : Prop := INT_MIN ≤ x ∧ x ≤ INT_MAX

instance (x : Int) : Decidable (IsInt32 x) := by
  unfold IsInt32
  exact inferInstance

/-- The 32-bit two's complement value of the exact number `x`: `x` itself when `x` is an
`int`, otherwise `x` reduced modulo 2^32 into the range of `int`, which is what the machine
addition of two `int`s leaves in the register. -/
def wrapInt32 (x : Int) : Int := (x + 2 ^ 31) % 2 ^ 32 - 2 ^ 31

/-- An address held in a raw or shared pointer (`void*`, `std::shared_ptr<T>`, `T*`). -/
abbrev Ptr : Type := Nat

/-! ## Background workers -/

/-- The functions handed to a worker as `pink::TaskFunc`. -/
inductive TaskFunc where
  | HandleBGWorkerWriteBinlog
  | HandleBGWorkerWriteDB
  | other (addr : Ptr)
  deriving DecidableEq

/-- The `void* arg` handed to a worker together with the task function.
`ReplClientWriteBinlogTaskArg` holds the worker it is scheduled on, here as the
index of that worker in `bg_workers_`. -/
inductive TaskArg where
  | ReplClientWriteBinlogTaskArg (res conn res_private_data : Ptr) (worker : Nat)
  | ReplClientWriteDBTaskArg (argv binlog_item : Ptr) (table_name : String) (partition_id : Nat)
  | other (addr : Ptr)
  deriving DecidableEq

/-- One queued task: the pair `(func, arg)` of `Schedule(func, arg)`. -/
structure Task where
  func : TaskFunc
  arg : TaskArg
  deriving DecidableEq

/-- Modelled from the spec: the class `PikaReplBgWorker` (its source file is not
part of `src/`).  "Background Worker — one FIFO task queue + one execution
thread; processes tasks strictly in submission order."  `queue` is the FIFO,
head first; `executed` records the tasks the worker thread has already run,
oldest first. -/
structure PikaReplBgWorker where
  queue : List Task
  executed : List Task
  deriving DecidableEq

namespace PikaReplBgWorker

/-- Modelled from the spec: `PikaReplBgWorker::Schedule`, "enqueues `task` onto
worker `index`'s FIFO": the task goes to the tail of the queue. -/
def Schedule (self : PikaReplBgWorker) (func : TaskFunc) (arg : TaskArg) : PikaReplBgWorker :=
  { self with queue := self.queue ++ [⟨func, arg⟩] }

/-- Modelled from the spec: one turn of the worker thread's loop, "pop next task
(blocking if queue empty) → execute it → repeat".  On an empty queue nothing
happens. -/
def RunOne (self : PikaReplBgWorker) : PikaReplBgWorker :=
  match self.queue with
  | [] => self
  | t :: rest => { queue := rest, executed := self.executed ++ [t] }

/-- Every task ever scheduled on the worker, in submission order: those already
run followed by those still queued. -/
def history (self : PikaReplBgWorker) : List Task :=
  self.executed ++ self.queue

end PikaReplBgWorker

/-! ## The replication client -/

/-- The data members of `PikaReplClient` the scheduling functions touch. -/
structure PikaReplClient where
  bg_workers_ : List PikaReplBgWorker
  next_avail_ : Nat
  deriving DecidableEq

namespace PikaReplClient

/-- `PikaReplClient::GetHashIndex` (pika_repl_client.cc:70-73).
`hash_base = bg_workers_.size() / 2`; the result is
`(str_hash(key) % hash_base) + (upper_half ? 0 : hash_base)` in `size_t`.
Remainder by `hash_base = 0` is undefined: `none`. -/
def GetHashIndex (str_hash : String → size_t) (self : PikaReplClient)
    (key : String) (upper_half : Bool) : Option Nat :=
  let hash_base := self.bg_workers_.length / 2
  if hash_base = 0 then none
  else some ((((str_hash key).val % hash_base) + (if upper_half then 0 else hash_base)) % SIZE_T_MOD)

/-- Modelled from the spec: `PikaReplClient::UpdateNextAvail`, defined in the
header `include/pika_repl_client.h` (not part of `src/`).  "picks the next
worker using a monotonically advancing cursor modulo pool size". -/
def UpdateNextAvail (self : PikaReplClient) : PikaReplClient :=
  { self with next_avail_ := (self.next_avail_ + 1) % self.bg_workers_.length }

/-- `PikaReplClient::Schedule` (pika_repl_client.cc:47-50):
`bg_workers_[next_avail_]->Schedule(func, arg); UpdateNextAvail();`. -/
def Schedule (self : PikaReplClient) (func : TaskFunc) (arg : TaskArg) : Option PikaReplClient :=
  match self.bg_workers_[self.next_avail_]? with
  | none => none
  | some w =>
    some (UpdateNextAvail
      { self with bg_workers_ := self.bg_workers_.set self.next_avail_ (w.Schedule func arg) })

/-- `PikaReplClient::ScheduleWriteBinlogTask` (pika_repl_client.cc:52-59). -/
def ScheduleWriteBinlogTask (str_hash : String → size_t) (self : PikaReplClient)
    (table_partition : String) (res conn res_private_data : Ptr) : Option PikaReplClient :=
  match GetHashIndex str_hash self table_partition true with
  | none => none
  | some index =>
    match self.bg_workers_[index]? with
    | none => none
    | some w =>
      let task_arg := TaskArg.ReplClientWriteBinlogTaskArg res conn res_private_data index
      some { self with
        bg_workers_ := self.bg_workers_.set index (w.Schedule .HandleBGWorkerWriteBinlog task_arg) }

/-- `PikaReplClient::ScheduleWriteDBTask` (pika_repl_client.cc:61-68). -/
def ScheduleWriteDBTask (str_hash : String → size_t) (self : PikaReplClient)
    (dispatch_key : String) (argv binlog_item : Ptr) (table_name : String)
    (partition_id : Nat) : Option PikaReplClient :=
  match GetHashIndex str_hash self dispatch_key false with
  | none => none
  | some index =>
    match self.bg_workers_[index]? with
    | none => none
    | some w =>
      let task_arg := TaskArg.ReplClientWriteDBTaskArg argv binlog_item table_name partition_id
      some { self with
        bg_workers_ := self.bg_workers_.set index (w.Schedule .HandleBGWorkerWriteDB task_arg) }

end PikaReplClient

/-! ## Histories of calls -/

/-- One event in the life of the worker pool: a call of one of the three
scheduling entry points, or one turn of the loop of worker `i`. -/
inductive Event where
  | Schedule (func : TaskFunc) (arg : TaskArg)
  | ScheduleWriteBinlogTask (table_partition : String) (res conn res_private_data : Ptr)
  | ScheduleWriteDBTask (dispatch_key : String) (argv binlog_item : Ptr) (table_name : String)
      (partition_id : Nat)
  | WorkerRun (i : Nat)
  deriving DecidableEq

/-- The effect of one event on the client. -/
def step (str_hash : String → size_t) (c : PikaReplClient) : Event → Option PikaReplClient
  | .Schedule func arg => c.Schedule func arg
  | .ScheduleWriteBinlogTask k res conn pd => c.ScheduleWriteBinlogTask str_hash k res conn pd
  | .ScheduleWriteDBTask k argv item tn pid => c.ScheduleWriteDBTask str_hash k argv item tn pid
  | .WorkerRun i =>
    match c.bg_workers_[i]? with
    | none => some c
    | some w => some { c with bg_workers_ := c.bg_workers_.set i w.RunOne }

/-- The effect of a sequence of events, first event first. -/
def run (str_hash : String → size_t) : PikaReplClient → List Event → Option PikaReplClient
  | c, [] => some c
  | c, e :: es =>
    match step str_hash c e with
    | none => none
    | some c1 => run str_hash c1 es

/-- The task a `ScheduleWriteBinlogTask` call puts on worker `index`. -/
def writeBinlogTask (res conn res_private_data : Ptr) (index : Nat) : Task :=
  ⟨.HandleBGWorkerWriteBinlog, .ReplClientWriteBinlogTaskArg res conn res_private_data index⟩

/-- The task a `ScheduleWriteDBTask` call puts on a worker. -/
def writeDBTask (argv binlog_item : Ptr) (table_name : String) (partition_id : Nat) : Task :=
  ⟨.HandleBGWorkerWriteDB, .ReplClientWriteDBTaskArg argv binlog_item table_name partition_id⟩

/-- The history of worker `i` of the client (empty when there is no such worker). -/
def historyAt (c : PikaReplClient) (i : Nat) : List Task :=
  match c.bg_workers_[i]? with
  | none => []
  | some w => w.history

/-- The tasks worker `i` of the client has already run (empty when there is no such worker). -/
def executedAt (c : PikaReplClient) (i : Nat) : List Task :=
  match c.bg_workers_[i]? with
  | none => []
  | some w => w.executed

/-- Whether the event is one of the two hash-dispatched entry points. -/
def Event.usesHash : Event → Bool
  | .ScheduleWriteBinlogTask _ _ _ _ => true
  | .ScheduleWriteDBTask _ _ _ _ _ => true
  | _ => false

/-- How many of the events are calls of `Schedule`. -/
def countSchedule : List Event → Nat
  | [] => 0
  | .Schedule _ _ :: es => countSchedule es + 1
  | _ :: es => countSchedule es

/-- A sample string hash used to evaluate the definitions: the length of the key. -/
def lenHash (k : String) : size_t := Fin.ofNat k.length

/-- A pool of `n` idle workers with the cursor at 0, as the constructor leaves it. -/
def freshPool (n : Nat) : PikaReplClient :=
  { bg_workers_ := List.replicate n ⟨[], []⟩, next_avail_ := 0 }

/-! ## Outbound sync requests -/

/-- The codes of `slash::Status`, the result type of the send operations (declared in the
slash library, outside `src/`). -/
inductive StatusCode where
  | kOk
  | kNotFound
  | kCorruption
  | kNotSupported
  | kInvalidArgument
  | kIOError
  | kTimeout
  deriving DecidableEq

/-- A `slash::Status`: a code and a message. -/
structure Status where
  code : StatusCode
  msg : String
  deriving DecidableEq

/-- The call `Status::Corruption(msg)`. -/
def Status.Corruption (msg : String) : Status := ⟨.kCorruption, msg⟩

/-- The C++ struct `BinlogOffset` passed to the send operations: `uint32_t filenum` and
`uint64_t offset`. -/
structure BinlogOffset where
  filenum : Nat
  offset : Nat
  deriving DecidableEq

namespace InnerMessage

/-- Modelled from the spec: the type tag of the request envelope, "one top-level request
envelope with a type tag selecting a variant" (the enum `InnerMessage::Type` of the
protobuf schema, which is not part of `src/`). -/
inductive ReqType where
  | kMetaSync
  | kTrySync
  | kDBSync
  | kBinlogSync
  deriving DecidableEq

/-- Modelled from the spec: `node: {ip, port}` (protobuf message `Node`). -/
structure Node where
  ip : String
  port : Int
  deriving DecidableEq

/-- Modelled from the spec: `partition: {table_name, partition_index}` (protobuf message
`Partition`, whose second field the code calls `partition_id`). -/
structure Partition where
  table_name : String
  partition_id : Nat
  deriving DecidableEq

/-- Modelled from the spec: `binlog_offset: {file_sequence, byte_offset}` (protobuf message
`BinlogOffset`, whose fields the code calls `filenum` and `offset`). -/
structure BinlogOffset where
  filenum : Nat
  offset : Nat
  deriving DecidableEq

/-- Modelled from the spec: "Totally ordered lexicographically by (file_sequence,
byte_offset)": `a ≤ b` in the BinlogOffset ordering. -/
def BinlogOffset.le (a b : BinlogOffset) : Prop :=
  a.filenum < b.filenum ∨ (a.filenum = b.filenum ∧ a.offset ≤ b.offset)

instance (a b : BinlogOffset) : Decidable (BinlogOffset.le a b) := by
  unfold BinlogOffset.le
  exact inferInstance

/-- Modelled from the spec: `MetaSync{node: {ip, port}, auth: optional string}`. -/
structure MetaSync where
  node : Node
  auth : Option String
  deriving DecidableEq

/-- Modelled from the spec: `TrySync{node, partition, binlog_offset}`. -/
structure TrySync where
  node : Node
  partition : Partition
  binlog_offset : BinlogOffset
  deriving DecidableEq

/-- Modelled from the spec: `DBSync{node, partition, binlog_offset}`. -/
structure DBSync where
  node : Node
  partition : Partition
  binlog_offset : BinlogOffset
  deriving DecidableEq

/-- Modelled from the spec: `BinlogSync{table_name, partition_index, ack_range_start,
ack_range_end}`. -/
structure BinlogSync where
  table_name : String
  partition_id : Nat
  ack_range_start : BinlogOffset
  ack_range_end : BinlogOffset
  deriving DecidableEq

/-- Modelled from the spec: the request envelope `InnerMessage::InnerRequest`: the type tag
and one optional field per variant; a variant is present once its `mutable_` accessor has
been called. -/
structure InnerRequest where
  type : ReqType
  meta_sync : Option MetaSync
  try_sync : Option TrySync
  db_sync : Option DBSync
  binlog_sync : Option BinlogSync
  deriving DecidableEq

end InnerMessage

/-- What the send operations read from `g_pika_server`. -/
structure PikaServer where
  host : String
  port : Int
  master_ip : String
  master_port : Int
  deriving DecidableEq

/-- What the send operations read from `g_pika_conf`. -/
structure PikaConf where
  masterauth : String
  deriving DecidableEq

/-- The collaborators of the send operations whose code is outside `src/`:
`request.SerializeToString(&to_send)` (`none` when it returns false, else the bytes written
to `to_send`), the status `client_thread_->Write(ip, port, msg)` returns, and the constant
`kPortShiftReplServer`. -/
structure SendEnv where
  SerializeToString : InnerMessage.InnerRequest → Option String
  Write : String → Int → String → Status
  kPortShiftReplServer : Int

/-- One call of `client_thread_->Write(ip, port, msg)`. -/
structure WriteCall where
  ip : String
  port : Int
  msg : String
  deriving DecidableEq

/-- The outcome of a send operation: the status it returns and the transport writes it
performed, in order. -/
structure SendResult where
  status : Status
  writes : List WriteCall
  deriving DecidableEq

namespace PikaReplClient

/-- The request `SendMetaSync` builds (pika_repl_client.cc:80-90). -/
def SendMetaSync_request (server : PikaServer) (conf : PikaConf) : InnerMessage.InnerRequest :=
  let node : InnerMessage.Node := { ip := server.host, port := server.port }
  let masterauth := conf.masterauth
  let meta_sync : InnerMessage.MetaSync :=
    { node := node, auth := if masterauth = "" then none else some masterauth }
  { type := .kMetaSync, meta_sync := some meta_sync, try_sync := none, db_sync := none,
    binlog_sync := none }

/-- `PikaReplClient::SendMetaSync` (pika_repl_client.cc:79-104).  The port
`master_port + kPortShiftReplServer` (line 103) is the sum of two 32-bit `int`s: the exact
sum while that is an `int`, and the 32-bit two's complement result of the addition beyond
(there the C++ addition overflows).  The log lines are left out. -/
def SendMetaSync (env : SendEnv) (server : PikaServer) (conf : PikaConf) : SendResult :=
  let request := SendMetaSync_request server conf
  let master_ip := server.master_ip
  let master_port := server.master_port
  match env.SerializeToString request with
  | none => { status := Status.Corruption "Serialize Failed", writes := [] }
  | some to_send =>
    { status := env.Write master_ip (wrapInt32 (master_port + env.kPortShiftReplServer)) to_send,
      writes := [⟨master_ip, wrapInt32 (master_port + env.kPortShiftReplServer), to_send⟩] }

/-- The request `SendPartitionDBSync` builds (pika_repl_client.cc:109-121). -/
def SendPartitionDBSync_request (server : PikaServer) (table_name : String)
    (partition_id : Nat) (boffset : BinlogOffset) : InnerMessage.InnerRequest :=
  let node : InnerMessage.Node := { ip := server.host, port := server.port }
  let partition : InnerMessage.Partition :=
    { table_name := table_name, partition_id := partition_id }
  let binlog_offset : InnerMessage.BinlogOffset :=
    { filenum := boffset.filenum, offset := boffset.offset }
  let db_sync : InnerMessage.DBSync :=
    { node := node, partition := partition, binlog_offset := binlog_offset }
  { type := .kDBSync, meta_sync := none, try_sync := none, db_sync := some db_sync,
    binlog_sync := none }

/-- `PikaReplClient::SendPartitionDBSync` (pika_repl_client.cc:106-132); the port is the 32-bit `int` sum
as in `SendMetaSync`. -/
def SendPartitionDBSync (env : SendEnv) (server : PikaServer) (table_name : String)
    (partition_id : Nat) (boffset : BinlogOffset) : SendResult :=
  let request := SendPartitionDBSync_request server table_name partition_id boffset
  let master_ip := server.master_ip
  let master_port := server.master_port
  match env.SerializeToString request with
  | none => { status := Status.Corruption "Serialize Failed", writes := [] }
  | some to_send =>
    { status := env.Write master_ip (wrapInt32 (master_port + env.kPortShiftReplServer)) to_send,
      writes := [⟨master_ip, wrapInt32 (master_port + env.kPortShiftReplServer), to_send⟩] }

/-- The request `SendPartitionTrySync` builds (pika_repl_client.cc:138-150). -/
def SendPartitionTrySync_request (server : PikaServer) (table_name : String)
    (partition_id : Nat) (boffset : BinlogOffset) : InnerMessage.InnerRequest :=
  let node : InnerMessage.Node := { ip := server.host, port := server.port }
  let partition : InnerMessage.Partition :=
    { table_name := table_name, partition_id := partition_id }
  let binlog_offset : InnerMessage.BinlogOffset :=
    { filenum := boffset.filenum, offset := boffset.offset }
  let try_sync : InnerMessage.TrySync :=
    { node := node, partition := partition, binlog_offset := binlog_offset }
  { type := .kTrySync, meta_sync := none, try_sync := some try_sync, db_sync := none,
    binlog_sync := none }

/-- `PikaReplClient::SendPartitionTrySync` (pika_repl_client.cc:135-161); the port is the 32-bit `int` sum
as in `SendMetaSync`. -/
def SendPartitionTrySync (env : SendEnv) (server : PikaServer) (table_name : String)
    (partition_id : Nat) (boffset : BinlogOffset) : SendResult :=
  let request := SendPartitionTrySync_request server table_name partition_id boffset
  let master_ip := server.master_ip
  let master_port := server.master_port
  match env.SerializeToString request with
  | none => { status := Status.Corruption "Serialize Failed", writes := [] }
  | some to_send =>
    { status := env.Write master_ip (wrapInt32 (master_port + env.kPortShiftReplServer)) to_send,
      writes := [⟨master_ip, wrapInt32 (master_port + env.kPortShiftReplServer), to_send⟩] }

/-- The request `SendPartitionBinlogSyncAck` builds (pika_repl_client.cc:167-179). -/
def SendPartitionBinlogSyncAck_request (table_name : String) (partition_id : Nat)
    (ack_start ack_end : BinlogOffset) : InnerMessage.InnerRequest :=
  let ack_range_start : InnerMessage.BinlogOffset :=
    { filenum := ack_start.filenum, offset := ack_start.offset }
  let ack_range_end : InnerMessage.BinlogOffset :=
    { filenum := ack_end.filenum, offset := ack_end.offset }
  let binlog_sync : InnerMessage.BinlogSync :=
    { table_name := table_name, partition_id := partition_id,
      ack_range_start := ack_range_start, ack_range_end := ack_range_end }
  { type := .kBinlogSync, meta_sync := none, try_sync := none, db_sync := none,
    binlog_sync := some binlog_sync }

/-- `PikaReplClient::SendPartitionBinlogSyncAck` (pika_repl_client.cc:163-190); the port is the 32-bit `int` sum
as in `SendMetaSync`. -/
def SendPartitionBinlogSyncAck (env : SendEnv) (server : PikaServer) (table_name : String)
    (partition_id : Nat) (ack_start ack_end : BinlogOffset) : SendResult :=
  let request := SendPartitionBinlogSyncAck_request table_name partition_id ack_start ack_end
  let master_ip := server.master_ip
  let master_port := server.master_port
  match env.SerializeToString request with
  | none => { status := Status.Corruption "Serialize Failed", writes := [] }
  | some to_send =>
    { status := env.Write master_ip (wrapInt32 (master_port + env.kPortShiftReplServer)) to_send,
      writes := [⟨master_ip, wrapInt32 (master_port + env.kPortShiftReplServer), to_send⟩] }

end PikaReplClient

/-- A sample server: the replica listens on 10.0.0.2:9221, its master on 10.0.0.1:9221. -/
def sampleServer : PikaServer :=
  { host := "10.0.0.2", port := 9221, master_ip := "10.0.0.1", master_port := 9221 }

/-- A sample environment in which serialisation yields the table name of the variant that is
set, the transport reports a timeout, and the port shift is 2000. -/
def timeoutEnv : SendEnv :=
  { SerializeToString := fun r =>
      match r.type with
      | .kMetaSync => some "meta"
      | .kTrySync => r.try_sync.map (fun t => t.partition.table_name)
      | .kDBSync => r.db_sync.map (fun t => t.partition.table_name)
      | .kBinlogSync => r.binlog_sync.map (fun t => t.table_name),
    Write := fun _ _ _ => ⟨.kTimeout, "timeout"⟩,
    kPortShiftReplServer := 2000 }

/-! ## Construction of the pool -/

/-- The constructor `PikaReplClient::PikaReplClient` (pika_repl_client.cc:15-21), with the
value `g_pika_conf->sync_thread_num()` (an `int`) as argument: `next_avail_(0)` and the loop
`for (int i = 0; i < 2 * sync_thread_num; ++i) bg_workers_.push_back(...)`, which pushes one
idle worker per value of `i` from 0 up to the bound, none when the bound is not positive.
The bound is an `int` product; when `2 * sync_thread_num` is not an `int` the signed
overflow is undefined behaviour: `none`. -/
def PikaReplClient.New (sync_thread_num : Int) : Option PikaReplClient :=
  let bound := 2 * sync_thread_num
  if bound < INT_MIN ∨ INT_MAX < bound then none
  else some { bg_workers_ := List.replicate bound.toNat ⟨[], []⟩, next_avail_ := 0 }

/-! ## Storage: fixed-width coding (`storage/src/coding.h`) -/

namespace storage

/-- A `std::string` or a `char` buffer: its bytes, each a number below 256. -/
abbrev Bytes : Type := List Nat

/-- The byte `ptr[i]` read as `unsigned char`; `s` is the buffer `ptr` points into and `i`
the position. -/
def byteAt (s : Bytes) (i : Nat) : Nat := s.getD i 0 % 256

/-- `EncodeFixed8(buf, value)` (coding.h:32-38) with `buf = s.data() + off`. -/
def EncodeFixed8 (s : Bytes) (off : Nat) (value : Nat) : Bytes :=
  s.set off (value % 256)

/-- `EncodeFixed16(buf, value)` (coding.h:40-47) with `buf = s.data() + off`: the two bytes
of the `uint16_t`, least significant first (on a little-endian target the `memcpy` of the
value, otherwise `value & 0xff`, `(value >> 8) & 0xff`). -/
def EncodeFixed16 (s : Bytes) (off : Nat) (value : Nat) : Bytes :=
  (s.set off (value % 256)).set (off + 1) (value / 2 ^ 8 % 256)

/-- `EncodeFixed32(buf, value)` (coding.h:49-58) with `buf = s.data() + off`. -/
def EncodeFixed32 (s : Bytes) (off : Nat) (value : Nat) : Bytes :=
  (((s.set off (value % 256)).set (off + 1) (value / 2 ^ 8 % 256)).set (off + 2)
    (value / 2 ^ 16 % 256)).set (off + 3) (value / 2 ^ 24 % 256)

/-- `EncodeFixed64(buf, value)` (coding.h:60-73) with `buf = s.data() + off`. -/
def EncodeFixed64 (s : Bytes) (off : Nat) (value : Nat) : Bytes :=
  (((((((s.set off (value % 256)).set (off + 1) (value / 2 ^ 8 % 256)).set (off + 2)
    (value / 2 ^ 16 % 256)).set (off + 3) (value / 2 ^ 24 % 256)).set (off + 4)
    (value / 2 ^ 32 % 256)).set (off + 5) (value / 2 ^ 40 % 256)).set (off + 6)
    (value / 2 ^ 48 % 256)).set (off + 7) (value / 2 ^ 56 % 256)

/-- `DecodeFixed8(ptr)` (coding.h:75-84) with `ptr = s.data() + off`. -/
def DecodeFixed8 (s : Bytes) (off : Nat) : Nat := byteAt s off

/-- `DecodeFixed16(ptr)` (coding.h:86-96) with `ptr = s.data() + off`:
`ptr[0] | (ptr[1] << 8)`. -/
def DecodeFixed16 (s : Bytes) (off : Nat) : Nat :=
  byteAt s off + byteAt s (off + 1) * 2 ^ 8

/-- `DecodeFixed32(ptr)` (coding.h:98-110) with `ptr = s.data() + off`. -/
def DecodeFixed32 (s : Bytes) (off : Nat) : Nat :=
  byteAt s off + byteAt s (off + 1) * 2 ^ 8 + byteAt s (off + 2) * 2 ^ 16
    + byteAt s (off + 3) * 2 ^ 24

/-- `DecodeFixed64(ptr)` (coding.h:112-123) with `ptr = s.data() + off`:
`lo = DecodeFixed32(ptr)`, `hi = DecodeFixed32(ptr + 4)`, result `(hi << 32) | lo`. -/
def DecodeFixed64 (s : Bytes) (off : Nat) : Nat :=
  let lo := DecodeFixed32 s off
  let hi := DecodeFixed32 s (off + 4)
  hi * 2 ^ 32 + lo

/-- `EncodeDoubleToUInt64(value)` (coding.h:125-139); the `double` is given by its 64-bit
pattern, which the `memcpy` puts into `result`. -/
def EncodeDoubleToUInt64 (value : Nat) : Nat :=
  let result := value
  if result >>> 63 = 1 then result ^^^ 0xffffffffffffffff
  else result ||| 0x8000000000000000

/-- `DecodeDoubleFromUInt64(value)` (coding.h:141-152); the result is the 64-bit pattern of
the `double` returned. -/
def DecodeDoubleFromUInt64 (value : Nat) : Nat :=
  if value >>> 63 = 0 then value ^^^ 0xffffffffffffffff
  else value &&& 0x7fffffffffffffff

/-- `EncodeSizedString(str, value)` (coding.h:154-159): the new content of `*str`.  The
`size_t` `value.size()` becomes the `uint32_t` argument of `EncodeFixed32`. -/
def EncodeSizedString (str : Bytes) (value : Bytes) : Bytes :=
  let buf := EncodeFixed32 (List.replicate 4 0) 0 (value.length % 2 ^ 32)
  str ++ buf ++ value

/-- `DecodeSizedString(input, value)` (coding.h:161-165): the new `*value` and the new
`*input`.  `size = DecodeFixed32(input->data())`, `*value` is the `size` bytes from
position 4, and `input->remove_prefix(size)` drops the first `size` bytes.  Reading past
the end of the slice is undefined: `none`. -/
def DecodeSizedString (input : Bytes) : Option (Bytes × Bytes) :=
  let size := DecodeFixed32 input 0
  if input.length < 4 + size then none
  else some ((input.drop 4).take size, input.drop size)

/-! ## Storage: the HNSW meta value (`storage/src/search_format.h`) -/

/-- `kDefaultHnswMetaValueLength` (search_format.h:46-48): the enum types `DataType`,
`VectorType` and `DistanceMetric` (declared outside `src/`) are one byte wide, so the sum is
1 + 1 + 1 + 2 + 1 + 3 * 4 + 8 + 2. -/
def kDefaultHnswMetaValueLength : Nat := 1 + 1 + 1 + 2 + 1 + 3 * 4 + 8 + 2

/-- The data members of `HnswMetaValue` (search_format.h:150-159).  Enum members hold the
value of their underlying byte; `epislon_` holds the 64-bit pattern of the `double`. -/
structure HnswMetaValue where
  type_ : Nat
  vector_type_ : Nat
  stored_data_type_ : Nat
  dim_ : Nat
  distance_metric_ : Nat
  capacity_ : Nat
  ef_construction_ : Nat
  ef_runtime_ : Nat
  epislon_ : Nat
  num_level_ : Nat
  deriving DecidableEq

namespace HnswMetaValue

/-- Every member is within the range of its C++ type. -/
def InRange (v : HnswMetaValue) : Prop :=
  v.type_ < 2 ^ 8 ∧ v.vector_type_ < 2 ^ 8 ∧ v.stored_data_type_ < 2 ^ 8 ∧ v.dim_ < 2 ^ 16 ∧
  v.distance_metric_ < 2 ^ 8 ∧ v.capacity_ < 2 ^ 32 ∧ v.ef_construction_ < 2 ^ 32 ∧
  v.ef_runtime_ < 2 ^ 32 ∧ v.epislon_ < 2 ^ 64 ∧ v.num_level_ < 2 ^ 16

instance (v : HnswMetaValue) : Decidable v.InRange := by
  unfold InRange
  exact inferInstance

/-- `HnswMetaValue::Encode` (search_format.h:78-103): the string resized to
`kDefaultHnswMetaValueLength` zero bytes, then written field by field as `dst` advances. -/
def Encode (v : HnswMetaValue) : Bytes :=
  let str : Bytes := List.replicate kDefaultHnswMetaValueLength 0
  let str := str.set 0 (v.type_ % 256)
  let str := EncodeFixed8 str 1 v.vector_type_
  let str := EncodeFixed8 str 2 v.stored_data_type_
  let str := EncodeFixed16 str 3 v.dim_
  let str := EncodeFixed8 str 5 v.distance_metric_
  let str := EncodeFixed32 str 6 v.capacity_
  let str := EncodeFixed32 str 10 v.ef_construction_
  let str := EncodeFixed32 str 14 v.ef_runtime_
  let str := EncodeFixed64 str 18 (EncodeDoubleToUInt64 v.epislon_)
  let str := EncodeFixed16 str 26 v.num_level_
  str

/-- `HnswMetaValue::Decode` (search_format.h:105-128): the members after the call; `none`
when the assertion `value.size() >= kDefaultHnswMetaValueLength` fails. -/
def Decode (value : Bytes) : Option HnswMetaValue :=
  if value.length < kDefaultHnswMetaValueLength then none
  else some
    { type_ := byteAt value 0,
      vector_type_ := DecodeFixed8 value 1,
      stored_data_type_ := DecodeFixed8 value 2,
      dim_ := DecodeFixed16 value 3,
      distance_metric_ := DecodeFixed8 value 5,
      capacity_ := DecodeFixed32 value 6,
      ef_construction_ := DecodeFixed32 value 10,
      ef_runtime_ := DecodeFixed32 value 14,
      epislon_ := DecodeDoubleFromUInt64 (DecodeFixed64 value 18),
      num_level_ := DecodeFixed16 value 26 }

end HnswMetaValue

/-- The data members of `ParsedHnswMetaValue` (search_format.h:265-276).
`distance_metric_` has no initialiser: it is `none` until something is assigned to it.
`value_` is the string the object points to (`none` for `nullptr`). -/
structure ParsedHnswMetaValue where
  type_ : Nat
  vector_type_ : Nat
  stored_data_type_ : Nat
  dim_ : Nat
  distance_metric_ : Option Nat
  capacity_ : Nat
  ef_construction_ : Nat
  ef_runtime_ : Nat
  epislon_ : Nat
  num_level_ : Nat
  value_ : Option Bytes
  deriving DecidableEq

namespace ParsedHnswMetaValue

/-- The constructor `ParsedHnswMetaValue::ParsedHnswMetaValue(std::string* value)`
(search_format.h:166-188); `none` when the assertion on the size fails.  `offset` advances
by 1, 1, 1, 2, 4, 4, 4 and 4 as in the source, so the reads are at 0, 1, 2, 3, 5, 9, 13, 17
and 21. -/
def New (value : Bytes) : Option ParsedHnswMetaValue :=
  if value.length < kDefaultHnswMetaValueLength then none
  else some
    { type_ := DecodeFixed8 value 0,
      vector_type_ := DecodeFixed8 value 1,
      stored_data_type_ := DecodeFixed8 value 2,
      dim_ := DecodeFixed16 value 3,
      distance_metric_ := none,
      capacity_ := DecodeFixed32 value 5,
      ef_construction_ := DecodeFixed32 value 9,
      ef_runtime_ := DecodeFixed32 value 13,
      epislon_ := DecodeDoubleFromUInt64 (DecodeFixed64 value 17),
      num_level_ := DecodeFixed16 value 21,
      value_ := some value }

/-- `GetVectorType` (search_format.h:191). -/
def GetVectorType (p : ParsedHnswMetaValue) : Nat := p.vector_type_

/-- `GetStoredDataType` (search_format.h:192). -/
def GetStoredDataType (p : ParsedHnswMetaValue) : Nat := p.stored_data_type_

/-- `GetDim` (search_format.h:193). -/
def GetDim (p : ParsedHnswMetaValue) : Nat := p.dim_

/-- `GetDistanceMetric` (search_format.h:194). -/
def GetDistanceMetric (p : ParsedHnswMetaValue) : Option Nat := p.distance_metric_

/-- `GetCapacity` (search_format.h:195). -/
def GetCapacity (p : ParsedHnswMetaValue) : Nat := p.capacity_

/-- `GetEfConstruction` (search_format.h:196). -/
def GetEfConstruction (p : ParsedHnswMetaValue) : Nat := p.ef_construction_

/-- `GetEfRuntime` (search_format.h:197). -/
def GetEfRuntime (p : ParsedHnswMetaValue) : Nat := p.ef_runtime_

/-- `GetEpislon` (search_format.h:198). -/
def GetEpislon (p : ParsedHnswMetaValue) : Nat := p.epislon_

/-- `GetNumLevel` (search_format.h:199). -/
def GetNumLevel (p : ParsedHnswMetaValue) : Nat := p.num_level_

/-- `SetVectorType` (search_format.h:201-207). -/
def SetVectorType (p : ParsedHnswMetaValue) (type : Nat) : ParsedHnswMetaValue :=
  let p := { p with vector_type_ := type }
  match p.value_ with
  | none => p
  | some s => { p with value_ := some (EncodeFixed8 s 1 (p.vector_type_ % 2 ^ 8)) }

/-- `SetDim` (search_format.h:209-215): the argument of `EncodeFixed16` is
`(uint8_t)dim_`. -/
def SetDim (p : ParsedHnswMetaValue) (dim : Nat) : ParsedHnswMetaValue :=
  let p := { p with dim_ := dim }
  match p.value_ with
  | none => p
  | some s => { p with value_ := some (EncodeFixed16 s 3 (p.dim_ % 2 ^ 8)) }

/-- `SetDistanceMetric` (search_format.h:217-223). -/
def SetDistanceMetric (p : ParsedHnswMetaValue) (distance_metric : Nat) :
    ParsedHnswMetaValue :=
  let p := { p with distance_metric_ := some distance_metric }
  match p.value_ with
  | none => p
  | some s => { p with value_ := some (EncodeFixed8 s 5 (distance_metric % 2 ^ 8)) }

/-- `SetCapacity` (search_format.h:225-231). -/
def SetCapacity (p : ParsedHnswMetaValue) (cap : Nat) : ParsedHnswMetaValue :=
  let p := { p with capacity_ := cap }
  match p.value_ with
  | none => p
  | some s => { p with value_ := some (EncodeFixed32 s 6 p.capacity_) }

/-- `SetEfConstruction` (search_format.h:233-239). -/
def SetEfConstruction (p : ParsedHnswMetaValue) (efc : Nat) : ParsedHnswMetaValue :=
  let p := { p with ef_construction_ := efc }
  match p.value_ with
  | none => p
  | some s => { p with value_ := some (EncodeFixed32 s 10 p.ef_construction_) }

/-- `SetEfRuntime` (search_format.h:241-247). -/
def SetEfRuntime (p : ParsedHnswMetaValue) (efr : Nat) : ParsedHnswMetaValue :=
  let p := { p with ef_runtime_ := efr }
  match p.value_ with
  | none => p
  | some s => { p with value_ := some (EncodeFixed32 s 14 p.ef_runtime_) }

/-- `SetEpislon` (search_format.h:249-255). -/
def SetEpislon (p : ParsedHnswMetaValue) (epislon : Nat) : ParsedHnswMetaValue :=
  let p := { p with epislon_ := epislon }
  match p.value_ with
  | none => p
  | some s => { p with value_ := some (EncodeFixed64 s 18 (EncodeDoubleToUInt64 p.epislon_)) }

/-- `SetNumLevel` (search_format.h:257-263). -/
def SetNumLevel (p : ParsedHnswMetaValue) (num_level : Nat) : ParsedHnswMetaValue :=
  let p := { p with num_level_ := num_level }
  match p.value_ with
  | none => p
  | some s => { p with value_ := some (EncodeFixed16 s 26 p.num_level_) }

end ParsedHnswMetaValue

/-- A sample meta value: type 9, vector type 1, stored data type 2, dim 128, distance
metric 1, capacity 500000, ef_construction 200, ef_runtime 10, epsilon 0.01 (pattern
0x3F847AE147AE147B), num_level 3. -/
def sampleMeta : HnswMetaValue :=
  { type_ := 9, vector_type_ := 1, stored_data_type_ := 2, dim_ := 128, distance_metric_ := 1,
    capacity_ := 500000, ef_construction_ := 200, ef_runtime_ := 10,
    epislon_ := 0x3F847AE147AE147B, num_level_ := 3 }

/-- What the constructor of `ParsedHnswMetaValue` yields on the encoding of `sampleMeta`. -/
def sampleParsed : ParsedHnswMetaValue :=
  { type_ := 9, vector_type_ := 1, stored_data_type_ := 2, dim_ := 128,
    distance_metric_ := none, capacity_ := 128000001, ef_construction_ := 51200,
    ef_runtime_ := 2560, epislon_ := 322818021289917184, num_level_ := 57671,
    value_ := some sampleMeta.Encode }

end storage

/-! ## Theorems -/

open PikaReplClient

theorem GetHashIndex_eq (str_hash : String → size_t) (c : PikaReplClient) (key : String)
    (upper_half : Bool) (h2 : 2 ≤ c.bg_workers_.length) (hsz : c.bg_workers_.length < SIZE_T_MOD) :
    GetHashIndex str_hash c key upper_half =
      some ((str_hash key).val % (c.bg_workers_.length / 2)
        + (if upper_half then 0 else c.bg_workers_.length / 2)) := by
  have hb : c.bg_workers_.length / 2 ≠ 0 := by omega
  have hlt : (str_hash key).val % (c.bg_workers_.length / 2) < c.bg_workers_.length / 2 :=
    Nat.mod_lt _ (Nat.pos_of_ne_zero hb)
  unfold GetHashIndex
  simp only [hb, if_false]
  congr 1
  apply Nat.mod_eq_of_lt
  split <;> omega

theorem C1_value_aux (str_hash : String → size_t) (c : PikaReplClient) (key : String)
    (h2 : 2 ≤ c.bg_workers_.length) (hsz : c.bg_workers_.length < SIZE_T_MOD) :
    GetHashIndex str_hash c key true
        = some ((str_hash key).val % (c.bg_workers_.length / 2)) ∧
    GetHashIndex str_hash c key false
        = some (c.bg_workers_.length / 2 + (str_hash key).val % (c.bg_workers_.length / 2)) := by
  constructor
  · rw [GetHashIndex_eq str_hash c key true h2 hsz]; simp
  · rw [GetHashIndex_eq str_hash c key false h2 hsz]; simp [Nat.add_comm]

/-- C1: for every key and every pool of size N >= 2 (N a `size_t`),
`GetHashIndex(key, true)` is `str_hash(key) mod (N/2)` and `GetHashIndex(key, false)`
is `N/2 + str_hash(key) mod (N/2)`, with `N/2` the integer division of the pool size. -/
theorem C1_GetHashIndex_value (str_hash : String → size_t) (c : PikaReplClient) (key : String)
    (h2 : 2 ≤ c.bg_workers_.length) (hsz : c.bg_workers_.length < SIZE_T_MOD) :
    GetHashIndex str_hash c key true
        = some ((str_hash key).val % (c.bg_workers_.length / 2)) ∧
    GetHashIndex str_hash c key false
        = some (c.bg_workers_.length / 2 + (str_hash key).val % (c.bg_workers_.length / 2)) := by
  exact C1_value_aux str_hash c key h2 hsz

/-- C1 at a pool of five workers and the key "t1:0". -/
theorem C1_GetHashIndex_value_witness :
    (2 ≤ (freshPool 5).bg_workers_.length ∧ (freshPool 5).bg_workers_.length < SIZE_T_MOD) ∧
    (GetHashIndex lenHash (freshPool 5) "t1:0" true
        = some ((lenHash "t1:0").val % ((freshPool 5).bg_workers_.length / 2)) ∧
     GetHashIndex lenHash (freshPool 5) "t1:0" false
        = some ((freshPool 5).bg_workers_.length / 2
            + (lenHash "t1:0").val % ((freshPool 5).bg_workers_.length / 2))) :=
  ⟨by decide, C1_GetHashIndex_value lenHash (freshPool 5) "t1:0" (by decide) (by decide)⟩

/-- C2 (half-separation): for every key and every even pool size N >= 2 (N a `size_t`),
`GetHashIndex(k, true) < N/2 <= GetHashIndex(k, false) < N`; the index ranges `[0, N/2)` and
`[N/2, N)` share no index, have the same number of indices, and every worker index below N
lies in one of them. -/
theorem C2_half_separation (str_hash : String → size_t) (c : PikaReplClient) (key : String)
    (h2 : 2 ≤ c.bg_workers_.length) (heven : c.bg_workers_.length % 2 = 0)
    (hsz : c.bg_workers_.length < SIZE_T_MOD) :
    (∃ u l, GetHashIndex str_hash c key true = some u ∧
        GetHashIndex str_hash c key false = some l ∧
        u < c.bg_workers_.length / 2 ∧ c.bg_workers_.length / 2 ≤ l ∧
        l < c.bg_workers_.length) ∧
    (∀ i, ¬ (i < c.bg_workers_.length / 2 ∧
        (c.bg_workers_.length / 2 ≤ i ∧ i < c.bg_workers_.length))) ∧
    (c.bg_workers_.length / 2 - 0 = c.bg_workers_.length - c.bg_workers_.length / 2) ∧
    (∀ i, i < c.bg_workers_.length →
        i < c.bg_workers_.length / 2 ∨
        (c.bg_workers_.length / 2 ≤ i ∧ i < c.bg_workers_.length)) := by
  have hb : 0 < c.bg_workers_.length / 2 := by omega
  have hlt : (str_hash key).val % (c.bg_workers_.length / 2) < c.bg_workers_.length / 2 :=
    Nat.mod_lt _ hb
  obtain ⟨hu, hl⟩ := C1_value_aux str_hash c key h2 hsz
  refine ⟨⟨_, _, hu, hl, hlt, by omega, by omega⟩, ?_, by omega, ?_⟩
  · intro i hi; omega
  · intro i hi; omega

/-- C2 at a pool of four workers and the key "t1:0". -/
theorem C2_half_separation_witness :
    (2 ≤ (freshPool 4).bg_workers_.length ∧ (freshPool 4).bg_workers_.length % 2 = 0 ∧
      (freshPool 4).bg_workers_.length < SIZE_T_MOD) ∧
    (∃ u l, GetHashIndex lenHash (freshPool 4) "t1:0" true = some u ∧
        GetHashIndex lenHash (freshPool 4) "t1:0" false = some l ∧
        u < (freshPool 4).bg_workers_.length / 2 ∧ (freshPool 4).bg_workers_.length / 2 ≤ l ∧
        l < (freshPool 4).bg_workers_.length) :=
  ⟨by decide, (C2_half_separation lenHash (freshPool 4) "t1:0" (by decide) (by decide)
    (by decide)).1⟩

/-! ### Effect of one event on the histories of the workers -/

theorem historyAt_set_worker (ws : List PikaReplBgWorker) (cur cur2 i : Nat)
    (w w2 : PikaReplBgWorker) (ext : List Task) (hw : ws[i]? = some w)
    (hh : w2.history = w.history ++ ext) (j : Nat) :
    historyAt ⟨ws.set i w2, cur2⟩ j = historyAt ⟨ws, cur⟩ j ++ (if j = i then ext else []) := by
  have hi : i < ws.length := (List.getElem?_eq_some.mp hw).1
  unfold historyAt
  by_cases hji : j = i
  · subst hji
    simp only [List.getElem?_set_self hi, hw, hh, if_true]
  · simp only [List.getElem?_set_ne (Ne.symm hji), hji, if_false]
    cases ws[j]? <;> simp

theorem history_Schedule (w : PikaReplBgWorker) (func : TaskFunc) (arg : TaskArg) :
    (w.Schedule func arg).history = w.history ++ [⟨func, arg⟩] := by
  simp [PikaReplBgWorker.Schedule, PikaReplBgWorker.history]

theorem history_RunOne (w : PikaReplBgWorker) : w.RunOne.history = w.history ++ [] := by
  unfold PikaReplBgWorker.RunOne PikaReplBgWorker.history
  cases hq : w.queue <;> simp [hq]

theorem executedAt_prefix (c : PikaReplClient) (i : Nat) : executedAt c i <+: historyAt c i := by
  unfold executedAt historyAt
  cases c.bg_workers_[i]? with
  | none => exact List.prefix_refl _
  | some w => exact List.prefix_append _ _

theorem GetHashIndex_congr (str_hash : String → size_t) (c c2 : PikaReplClient) (key : String)
    (b : Bool) (h : c2.bg_workers_.length = c.bg_workers_.length) :
    GetHashIndex str_hash c2 key b = GetHashIndex str_hash c key b := by
  unfold GetHashIndex
  rw [h]

theorem GetHashIndex_lt (str_hash : String → size_t) (c : PikaReplClient) (key : String)
    (b : Bool) (h2 : 2 ≤ c.bg_workers_.length) (hsz : c.bg_workers_.length < SIZE_T_MOD) :
    ∃ i, GetHashIndex str_hash c key b = some i ∧ i < c.bg_workers_.length ∧
      (b = true → i < c.bg_workers_.length / 2) ∧
      (b = false → c.bg_workers_.length / 2 ≤ i) := by
  have hb : 0 < c.bg_workers_.length / 2 := by omega
  have hlt : (str_hash key).val % (c.bg_workers_.length / 2) < c.bg_workers_.length / 2 :=
    Nat.mod_lt _ hb
  refine ⟨_, GetHashIndex_eq str_hash c key b h2 hsz, ?_, ?_, ?_⟩
  · split <;> omega
  · intro hbt; simp [hbt]; exact hlt
  · intro hbf; simp [hbf]

/-- What `ScheduleWriteBinlogTask` does on a pool of at least two workers. -/
theorem ScheduleWriteBinlogTask_spec (str_hash : String → size_t) (c : PikaReplClient)
    (key : String) (res conn pd : Ptr)
    (h2 : 2 ≤ c.bg_workers_.length) (hsz : c.bg_workers_.length < SIZE_T_MOD) :
    ∃ i w, GetHashIndex str_hash c key true = some i ∧ i < c.bg_workers_.length / 2 ∧
      c.bg_workers_[i]? = some w ∧
      c.ScheduleWriteBinlogTask str_hash key res conn pd =
        some ⟨c.bg_workers_.set i
          ⟨w.queue ++ [writeBinlogTask res conn pd i], w.executed⟩, c.next_avail_⟩ := by
  obtain ⟨i, hi, hlt, hup, _⟩ := GetHashIndex_lt str_hash c key true h2 hsz
  refine ⟨i, c.bg_workers_[i], hi, hup rfl, List.getElem?_eq_getElem hlt, ?_⟩
  unfold PikaReplClient.ScheduleWriteBinlogTask
  simp only [hi, List.getElem?_eq_getElem hlt]
  rfl

/-- What `ScheduleWriteDBTask` does on a pool of at least two workers. -/
theorem ScheduleWriteDBTask_spec (str_hash : String → size_t) (c : PikaReplClient)
    (key : String) (argv item : Ptr) (tn : String) (pid : Nat)
    (h2 : 2 ≤ c.bg_workers_.length) (hsz : c.bg_workers_.length < SIZE_T_MOD) :
    ∃ i w, GetHashIndex str_hash c key false = some i ∧
      (c.bg_workers_.length / 2 ≤ i ∧ i < c.bg_workers_.length) ∧
      c.bg_workers_[i]? = some w ∧
      c.ScheduleWriteDBTask str_hash key argv item tn pid =
        some ⟨c.bg_workers_.set i
          ⟨w.queue ++ [writeDBTask argv item tn pid], w.executed⟩, c.next_avail_⟩ := by
  obtain ⟨i, hi, hlt, _, hlo⟩ := GetHashIndex_lt str_hash c key false h2 hsz
  refine ⟨i, c.bg_workers_[i], hi, ⟨hlo rfl, hlt⟩, List.getElem?_eq_getElem hlt, ?_⟩
  unfold PikaReplClient.ScheduleWriteDBTask
  simp only [hi, List.getElem?_eq_getElem hlt]
  rfl

/-- What `Schedule` does when the cursor is a valid index. -/
theorem Schedule_spec (c : PikaReplClient) (func : TaskFunc) (arg : TaskArg)
    (hcur : c.next_avail_ < c.bg_workers_.length) :
    ∃ w, c.bg_workers_[c.next_avail_]? = some w ∧
      c.Schedule func arg =
        some ⟨c.bg_workers_.set c.next_avail_ ⟨w.queue ++ [⟨func, arg⟩], w.executed⟩,
          (c.next_avail_ + 1) % c.bg_workers_.length⟩ := by
  refine ⟨c.bg_workers_[c.next_avail_], List.getElem?_eq_getElem hcur, ?_⟩
  unfold PikaReplClient.Schedule
  simp only [List.getElem?_eq_getElem hcur]
  simp [UpdateNextAvail, PikaReplBgWorker.Schedule]

theorem countSchedule_cons (e : Event) (es : List Event) :
    countSchedule (e :: es) = countSchedule [e] + countSchedule es := by
  cases e <;> simp [countSchedule, Nat.add_comm]

/-- One event on a well-formed pool: it has a result, the pool keeps its size, the cursor
advances exactly on `Schedule`, and at most one worker's history grows, at its end. -/
theorem step_spec (str_hash : String → size_t) (c : PikaReplClient) (e : Event)
    (hsz : c.bg_workers_.length < SIZE_T_MOD) (hcur : c.next_avail_ < c.bg_workers_.length)
    (hok : 2 ≤ c.bg_workers_.length ∨ e.usesHash = false) :
    ∃ c2 i ext, step str_hash c e = some c2 ∧
      c2.bg_workers_.length = c.bg_workers_.length ∧
      c2.next_avail_ = (c.next_avail_ + countSchedule [e]) % c.bg_workers_.length ∧
      ∀ j, historyAt c2 j = historyAt c j ++ (if j = i then ext else []) := by
  cases e with
  | Schedule func arg =>
    obtain ⟨w, hw, hs⟩ := Schedule_spec c func arg hcur
    refine ⟨_, c.next_avail_, [⟨func, arg⟩], hs, by simp, by simp [countSchedule], ?_⟩
    intro j
    exact historyAt_set_worker c.bg_workers_ c.next_avail_ _ c.next_avail_ w _ _ hw
      (by simp [PikaReplBgWorker.history]) j
  | ScheduleWriteBinlogTask k res conn pd =>
    have h2 : 2 ≤ c.bg_workers_.length := by
      rcases hok with h | h
      · exact h
      · simp [Event.usesHash] at h
    obtain ⟨i, w, _, _, hw, hs⟩ := ScheduleWriteBinlogTask_spec str_hash c k res conn pd h2 hsz
    refine ⟨_, i, [writeBinlogTask res conn pd i], hs, by simp, ?_, ?_⟩
    · simp [countSchedule, Nat.mod_eq_of_lt hcur]
    · intro j
      exact historyAt_set_worker c.bg_workers_ c.next_avail_ _ i w _ _ hw
        (by simp [PikaReplBgWorker.history]) j
  | ScheduleWriteDBTask k argv item tn pid =>
    have h2 : 2 ≤ c.bg_workers_.length := by
      rcases hok with h | h
      · exact h
      · simp [Event.usesHash] at h
    obtain ⟨i, w, _, _, hw, hs⟩ := ScheduleWriteDBTask_spec str_hash c k argv item tn pid h2 hsz
    refine ⟨_, i, [writeDBTask argv item tn pid], hs, by simp, ?_, ?_⟩
    · simp [countSchedule, Nat.mod_eq_of_lt hcur]
    · intro j
      exact historyAt_set_worker c.bg_workers_ c.next_avail_ _ i w _ _ hw
        (by simp [PikaReplBgWorker.history]) j
  | WorkerRun i =>
    cases hw : c.bg_workers_[i]? with
    | none =>
      refine ⟨c, i, [], by simp [step, hw], rfl, ?_, ?_⟩
      · simp [countSchedule, Nat.mod_eq_of_lt hcur]
      · intro j; simp
    | some w =>
      refine ⟨⟨c.bg_workers_.set i w.RunOne, c.next_avail_⟩, i, [], by simp [step, hw],
        by simp, ?_, ?_⟩
      · simp [countSchedule, Nat.mod_eq_of_lt hcur]
      · intro j
        exact historyAt_set_worker c.bg_workers_ c.next_avail_ _ i w _ _ hw
          (history_RunOne w) j

/-- A sequence of events on a well-formed pool: it has a result, the pool keeps its size,
the cursor has advanced once per `Schedule` call, and every worker's history has only
grown at its end. -/
theorem run_spec (str_hash : String → size_t) (evs : List Event) :
    ∀ c : PikaReplClient, c.bg_workers_.length < SIZE_T_MOD →
      c.next_avail_ < c.bg_workers_.length →
      (2 ≤ c.bg_workers_.length ∨ ∀ e ∈ evs, e.usesHash = false) →
      ∃ c2, run str_hash c evs = some c2 ∧
        c2.bg_workers_.length = c.bg_workers_.length ∧
        c2.next_avail_ = (c.next_avail_ + countSchedule evs) % c.bg_workers_.length ∧
        ∀ j, ∃ ext, historyAt c2 j = historyAt c j ++ ext := by
  induction evs with
  | nil =>
    intro c _ hcur _
    exact ⟨c, rfl, rfl, by simp [countSchedule, Nat.mod_eq_of_lt hcur], fun j => ⟨[], by simp⟩⟩
  | cons e es ih =>
    intro c hsz hcur hok
    have hok1 : 2 ≤ c.bg_workers_.length ∨ e.usesHash = false := by
      rcases hok with h | h
      · exact Or.inl h
      · exact Or.inr (h e (List.mem_cons_self _ _))
    obtain ⟨c1, i, ext, hs, hlen, hc, hh⟩ := step_spec str_hash c e hsz hcur hok1
    have hpos : 0 < c.bg_workers_.length := by omega
    have hcur1 : c1.next_avail_ < c1.bg_workers_.length := by
      rw [hc, hlen]; exact Nat.mod_lt _ hpos
    have hok2 : 2 ≤ c1.bg_workers_.length ∨ ∀ e ∈ es, e.usesHash = false := by
      rcases hok with h | h
      · exact Or.inl (by omega)
      · exact Or.inr (fun e2 he2 => h e2 (List.mem_cons_of_mem _ he2))
    obtain ⟨c2, hr, hlen2, hc2, hh2⟩ := ih c1 (by omega) hcur1 hok2
    refine ⟨c2, by simp [run, hs, hr], by omega, ?_, ?_⟩
    · rw [hc2, hc, hlen, Nat.mod_add_mod, Nat.add_assoc, ← countSchedule_cons]
    · intro j
      obtain ⟨ext2, he2⟩ := hh2 j
      exact ⟨(if j = i then ext else []) ++ ext2, by rw [he2, hh j, List.append_assoc]⟩

theorem run_append (str_hash : String → size_t) (a b : List Event) :
    ∀ c : PikaReplClient,
      run str_hash c (a ++ b) = (run str_hash c a).bind (fun c1 => run str_hash c1 b) := by
  induction a with
  | nil => intro c; simp [run]
  | cons e es ih =>
    intro c
    simp only [List.cons_append, run]
    cases step str_hash c e with
    | none => simp
    | some c1 => simpa using ih c1

theorem ScheduleWriteBinlogTask_cursor (str_hash : String → size_t) (c c2 : PikaReplClient)
    (key : String) (res conn pd : Ptr)
    (h : c.ScheduleWriteBinlogTask str_hash key res conn pd = some c2) :
    c2.next_avail_ = c.next_avail_ := by
  unfold PikaReplClient.ScheduleWriteBinlogTask at h
  cases hi : GetHashIndex str_hash c key true with
  | none => simp [hi] at h
  | some i =>
    cases hw : c.bg_workers_[i]? with
    | none => simp [hi, hw] at h
    | some w =>
      simp only [hi, hw, Option.some.injEq] at h
      rw [← h]

theorem ScheduleWriteDBTask_cursor (str_hash : String → size_t) (c c2 : PikaReplClient)
    (key : String) (argv item : Ptr) (tn : String) (pid : Nat)
    (h : c.ScheduleWriteDBTask str_hash key argv item tn pid = some c2) :
    c2.next_avail_ = c.next_avail_ := by
  unfold PikaReplClient.ScheduleWriteDBTask at h
  cases hi : GetHashIndex str_hash c key false with
  | none => simp [hi] at h
  | some i =>
    cases hw : c.bg_workers_[i]? with
    | none => simp [hi, hw] at h
    | some w =>
      simp only [hi, hw, Option.some.injEq] at h
      rw [← h]

/-- Two events that each put one task at the end of the history of the same worker `i`,
with arbitrary events before, between and after them: both tasks are in the final history
of worker `i`, the first ahead of the second. -/
theorem ordering_core (str_hash : String → size_t) (c : PikaReplClient) (i : Nat)
    (e1 e2 : Event) (t1 t2 : Task) (pre mid post : List Event)
    (h2 : 2 ≤ c.bg_workers_.length) (hsz : c.bg_workers_.length < SIZE_T_MOD)
    (hcur : c.next_avail_ < c.bg_workers_.length)
    (he1 : ∀ d : PikaReplClient, d.bg_workers_.length = c.bg_workers_.length →
      ∃ d2, step str_hash d e1 = some d2 ∧ d2.bg_workers_.length = d.bg_workers_.length ∧
        d2.next_avail_ = d.next_avail_ ∧ historyAt d2 i = historyAt d i ++ [t1])
    (he2 : ∀ d : PikaReplClient, d.bg_workers_.length = c.bg_workers_.length →
      ∃ d2, step str_hash d e2 = some d2 ∧ d2.bg_workers_.length = d.bg_workers_.length ∧
        d2.next_avail_ = d.next_avail_ ∧ historyAt d2 i = historyAt d i ++ [t2]) :
    ∃ c1 c5, run str_hash c pre = some c1 ∧
      run str_hash c (pre ++ [e1] ++ mid ++ [e2] ++ post) = some c5 ∧
      ∃ b d, historyAt c5 i = historyAt c1 i ++ [t1] ++ b ++ [t2] ++ d := by
  have hpos : 0 < c.bg_workers_.length := by omega
  obtain ⟨c1, hr1, hl1, hc1, _⟩ := run_spec str_hash pre c hsz hcur (Or.inl h2)
  have hcur1 : c1.next_avail_ < c1.bg_workers_.length := by
    rw [hc1, hl1]; exact Nat.mod_lt _ hpos
  obtain ⟨c2, hs2, hl2, hc2, hh2⟩ := he1 c1 hl1
  obtain ⟨c3, hr3, hl3, hc3, hh3⟩ :=
    run_spec str_hash mid c2 (by omega) (by omega) (Or.inl (by omega))
  have hcur3 : c3.next_avail_ < c3.bg_workers_.length := by
    rw [hc3, hl3]; exact Nat.mod_lt _ (by omega)
  obtain ⟨c4, hs4, hl4, hc4, hh4⟩ := he2 c3 (by omega)
  obtain ⟨c5, hr5, _, _, hh5⟩ :=
    run_spec str_hash post c4 (by omega) (by omega) (Or.inl (by omega))
  obtain ⟨b, hb⟩ := hh3 i
  obtain ⟨d, hd⟩ := hh5 i
  refine ⟨c1, c5, hr1, ?_, b, d, ?_⟩
  · simp [run_append, run, hr1, hs2, hr3, hs4, hr5]
  · rw [hd, hh4, hb, hh2]

theorem step_WriteBinlog (str_hash : String → size_t) (c : PikaReplClient) (key : String)
    (res conn pd : Ptr) (i : Nat) (h2 : 2 ≤ c.bg_workers_.length)
    (hsz : c.bg_workers_.length < SIZE_T_MOD)
    (hi : GetHashIndex str_hash c key true = some i) :
    ∀ d : PikaReplClient, d.bg_workers_.length = c.bg_workers_.length →
      ∃ d2, step str_hash d (.ScheduleWriteBinlogTask key res conn pd) = some d2 ∧
        d2.bg_workers_.length = d.bg_workers_.length ∧
        d2.next_avail_ = d.next_avail_ ∧
        historyAt d2 i = historyAt d i ++ [writeBinlogTask res conn pd i] := by
  intro d hd
  obtain ⟨i2, w, hi2, _, hw, hs⟩ :=
    ScheduleWriteBinlogTask_spec str_hash d key res conn pd (by omega) (by omega)
  rw [GetHashIndex_congr str_hash c d key true hd, hi] at hi2
  obtain rfl : i = i2 := Option.some.inj hi2
  refine ⟨_, hs, by simp, rfl, ?_⟩
  have := historyAt_set_worker d.bg_workers_ d.next_avail_ d.next_avail_ i w
    ⟨w.queue ++ [writeBinlogTask res conn pd i], w.executed⟩ [writeBinlogTask res conn pd i] hw
    (by simp [PikaReplBgWorker.history]) i
  simpa using this

theorem step_WriteDB (str_hash : String → size_t) (c : PikaReplClient) (key : String)
    (argv item : Ptr) (tn : String) (pid : Nat) (i : Nat) (h2 : 2 ≤ c.bg_workers_.length)
    (hsz : c.bg_workers_.length < SIZE_T_MOD)
    (hi : GetHashIndex str_hash c key false = some i) :
    ∀ d : PikaReplClient, d.bg_workers_.length = c.bg_workers_.length →
      ∃ d2, step str_hash d (.ScheduleWriteDBTask key argv item tn pid) = some d2 ∧
        d2.bg_workers_.length = d.bg_workers_.length ∧
        d2.next_avail_ = d.next_avail_ ∧
        historyAt d2 i = historyAt d i ++ [writeDBTask argv item tn pid] := by
  intro d hd
  obtain ⟨i2, w, hi2, _, hw, hs⟩ :=
    ScheduleWriteDBTask_spec str_hash d key argv item tn pid (by omega) (by omega)
  rw [GetHashIndex_congr str_hash c d key false hd, hi] at hi2
  obtain rfl : i = i2 := Option.some.inj hi2
  refine ⟨_, hs, by simp, rfl, ?_⟩
  have := historyAt_set_worker d.bg_workers_ d.next_avail_ d.next_avail_ i w
    ⟨w.queue ++ [writeDBTask argv item tn pid], w.executed⟩ [writeDBTask argv item tn pid] hw
    (by simp [PikaReplBgWorker.history]) i
  simpa using this

/-- C3 (per-key ordering): on a pool of N >= 2 workers, let T1 and later T2 be submitted
through `ScheduleWriteBinlogTask` with the same key (first part) or both through
`ScheduleWriteDBTask` with the same key (second part), with arbitrary `Schedule`,
`ScheduleWriteBinlogTask`, `ScheduleWriteDBTask` calls and worker turns before, between and
after them.  Then all calls have a result, the worker index depends only on the key and the
pool size, both tasks are in the history of that one worker with T1 ahead of T2, and what
the worker has run is an initial segment of that history, so it runs T1 before T2. -/
theorem C3_per_key_ordering (str_hash : String → size_t) (c : PikaReplClient) (key : String)
    (pre mid post : List Event) (res1 conn1 pd1 res2 conn2 pd2 : Ptr)
    (argv1 item1 : Ptr) (tn1 : String) (pid1 : Nat) (argv2 item2 : Ptr) (tn2 : String)
    (pid2 : Nat)
    (h2 : 2 ≤ c.bg_workers_.length) (hsz : c.bg_workers_.length < SIZE_T_MOD)
    (hcur : c.next_avail_ < c.bg_workers_.length) :
    (∃ i c1 c5, GetHashIndex str_hash c key true = some i ∧
      (∀ d : PikaReplClient, d.bg_workers_.length = c.bg_workers_.length →
        GetHashIndex str_hash d key true = some i) ∧
      run str_hash c pre = some c1 ∧
      run str_hash c (pre ++ [.ScheduleWriteBinlogTask key res1 conn1 pd1] ++ mid
        ++ [.ScheduleWriteBinlogTask key res2 conn2 pd2] ++ post) = some c5 ∧
      (∃ b d, historyAt c5 i = historyAt c1 i ++ [writeBinlogTask res1 conn1 pd1 i] ++ b
        ++ [writeBinlogTask res2 conn2 pd2 i] ++ d) ∧
      executedAt c5 i <+: historyAt c5 i) ∧
    (∃ i c1 c5, GetHashIndex str_hash c key false = some i ∧
      (∀ d : PikaReplClient, d.bg_workers_.length = c.bg_workers_.length →
        GetHashIndex str_hash d key false = some i) ∧
      run str_hash c pre = some c1 ∧
      run str_hash c (pre ++ [.ScheduleWriteDBTask key argv1 item1 tn1 pid1] ++ mid
        ++ [.ScheduleWriteDBTask key argv2 item2 tn2 pid2] ++ post) = some c5 ∧
      (∃ b d, historyAt c5 i = historyAt c1 i ++ [writeDBTask argv1 item1 tn1 pid1] ++ b
        ++ [writeDBTask argv2 item2 tn2 pid2] ++ d) ∧
      executedAt c5 i <+: historyAt c5 i) := by
  constructor
  · obtain ⟨i, hi, _⟩ := GetHashIndex_lt str_hash c key true h2 hsz
    obtain ⟨c1, c5, hr1, hr5, hb⟩ := ordering_core str_hash c i _ _ _ _ pre mid post h2 hsz hcur
      (step_WriteBinlog str_hash c key res1 conn1 pd1 i h2 hsz hi)
      (step_WriteBinlog str_hash c key res2 conn2 pd2 i h2 hsz hi)
    exact ⟨i, c1, c5, hi, fun d hd => by rw [GetHashIndex_congr str_hash c d key true hd, hi],
      hr1, hr5, hb, executedAt_prefix c5 i⟩
  · obtain ⟨i, hi, _⟩ := GetHashIndex_lt str_hash c key false h2 hsz
    obtain ⟨c1, c5, hr1, hr5, hb⟩ := ordering_core str_hash c i _ _ _ _ pre mid post h2 hsz hcur
      (step_WriteDB str_hash c key argv1 item1 tn1 pid1 i h2 hsz hi)
      (step_WriteDB str_hash c key argv2 item2 tn2 pid2 i h2 hsz hi)
    exact ⟨i, c1, c5, hi, fun d hd => by rw [GetHashIndex_congr str_hash c d key false hd, hi],
      hr1, hr5, hb, executedAt_prefix c5 i⟩

/-- C3 on a pool of four workers: two binlog tasks for "t1:0" with a `Schedule` call before
them and a write-DB call and a worker turn between them. -/
theorem C3_per_key_ordering_witness :
    (2 ≤ (freshPool 4).bg_workers_.length ∧ (freshPool 4).bg_workers_.length < SIZE_T_MOD ∧
      (freshPool 4).next_avail_ < (freshPool 4).bg_workers_.length) ∧
    (∃ i c1 c5, GetHashIndex lenHash (freshPool 4) "t1:0" true = some i ∧
      (∀ d : PikaReplClient, d.bg_workers_.length = (freshPool 4).bg_workers_.length →
        GetHashIndex lenHash d "t1:0" true = some i) ∧
      run lenHash (freshPool 4) [.Schedule (.other 7) (.other 8)] = some c1 ∧
      run lenHash (freshPool 4) ([.Schedule (.other 7) (.other 8)]
        ++ [.ScheduleWriteBinlogTask "t1:0" 1 2 3]
        ++ [.ScheduleWriteDBTask "t1:0" 4 5 "t1" 0, .WorkerRun 0]
        ++ [.ScheduleWriteBinlogTask "t1:0" 11 12 13] ++ []) = some c5 ∧
      (∃ b d, historyAt c5 i = historyAt c1 i ++ [writeBinlogTask 1 2 3 i] ++ b
        ++ [writeBinlogTask 11 12 13 i] ++ d) ∧
      executedAt c5 i <+: historyAt c5 i) :=
  ⟨by decide, (C3_per_key_ordering lenHash (freshPool 4) "t1:0" [.Schedule (.other 7) (.other 8)]
    [.ScheduleWriteDBTask "t1:0" 4 5 "t1" 0, .WorkerRun 0] [] 1 2 3 11 12 13 4 5 "t1" 0
    4 5 "t1" 0 (by decide) (by decide) (by decide)).1⟩

/-- C4 (frame): on a pool of N >= 2 workers `ScheduleWriteBinlogTask` has a result in which
worker `GetHashIndex(key, true)`, an upper-half worker (index below N/2), has exactly one
more task, at the tail of its queue, and `ScheduleWriteDBTask` has a result in which worker
`GetHashIndex(key, false)`, a lower-half worker (index from N/2 to N-1), has exactly one more
task, at the tail of its queue; the number of workers, every other worker and the cursor
`next_avail_` are as before. -/
theorem C4_schedule_write_frame (str_hash : String → size_t) (c : PikaReplClient)
    (key : String) (res conn pd argv item : Ptr) (tn : String) (pid : Nat)
    (h2 : 2 ≤ c.bg_workers_.length) (hsz : c.bg_workers_.length < SIZE_T_MOD) :
    (∃ i w c2, GetHashIndex str_hash c key true = some i ∧ i < c.bg_workers_.length / 2 ∧
      c.bg_workers_[i]? = some w ∧
      c.ScheduleWriteBinlogTask str_hash key res conn pd = some c2 ∧
      c2.bg_workers_.length = c.bg_workers_.length ∧
      c2.bg_workers_[i]? = some ⟨w.queue ++ [writeBinlogTask res conn pd i], w.executed⟩ ∧
      (∀ j, j ≠ i → c2.bg_workers_[j]? = c.bg_workers_[j]?) ∧
      c2.next_avail_ = c.next_avail_) ∧
    (∃ i w c2, GetHashIndex str_hash c key false = some i ∧
      (c.bg_workers_.length / 2 ≤ i ∧ i < c.bg_workers_.length) ∧
      c.bg_workers_[i]? = some w ∧
      c.ScheduleWriteDBTask str_hash key argv item tn pid = some c2 ∧
      c2.bg_workers_.length = c.bg_workers_.length ∧
      c2.bg_workers_[i]? = some ⟨w.queue ++ [writeDBTask argv item tn pid], w.executed⟩ ∧
      (∀ j, j ≠ i → c2.bg_workers_[j]? = c.bg_workers_[j]?) ∧
      c2.next_avail_ = c.next_avail_) := by
  constructor
  · obtain ⟨i, w, hi, hup, hw, hs⟩ :=
      ScheduleWriteBinlogTask_spec str_hash c key res conn pd h2 hsz
    have hlt : i < c.bg_workers_.length := (List.getElem?_eq_some.mp hw).1
    exact ⟨i, w, _, hi, hup, hw, hs, by simp, List.getElem?_set_self hlt,
      fun j hj => List.getElem?_set_ne (Ne.symm hj), rfl⟩
  · obtain ⟨i, w, hi, hlo, hw, hs⟩ :=
      ScheduleWriteDBTask_spec str_hash c key argv item tn pid h2 hsz
    exact ⟨i, w, _, hi, hlo, hw, hs, by simp, List.getElem?_set_self hlo.2,
      fun j hj => List.getElem?_set_ne (Ne.symm hj), rfl⟩

/-- C4 on a pool of three workers and the key "t1:0". -/
theorem C4_schedule_write_frame_witness :
    (2 ≤ (freshPool 3).bg_workers_.length ∧ (freshPool 3).bg_workers_.length < SIZE_T_MOD) ∧
    (∃ i w c2, GetHashIndex lenHash (freshPool 3) "t1:0" false = some i ∧
      ((freshPool 3).bg_workers_.length / 2 ≤ i ∧ i < (freshPool 3).bg_workers_.length) ∧
      (freshPool 3).bg_workers_[i]? = some w ∧
      (freshPool 3).ScheduleWriteDBTask lenHash "t1:0" 4 5 "t1" 0 = some c2 ∧
      c2.bg_workers_.length = (freshPool 3).bg_workers_.length ∧
      c2.bg_workers_[i]? = some ⟨w.queue ++ [writeDBTask 4 5 "t1" 0], w.executed⟩ ∧
      (∀ j, j ≠ i → c2.bg_workers_[j]? = (freshPool 3).bg_workers_[j]?) ∧
      c2.next_avail_ = (freshPool 3).next_avail_) :=
  ⟨by decide, (C4_schedule_write_frame lenHash (freshPool 3) "t1:0" 1 2 3 4 5 "t1" 0
    (by decide) (by decide)).2⟩

/-- C10 (round-robin): on a pool of N >= 1 workers whose cursor starts at 0, after any
sequence of events containing k calls of `Schedule` (hash-dispatched calls among them only
when N >= 2) the cursor is k mod N, a valid index; the next call of `Schedule` has a result
in which its task is at the tail of the queue of worker k mod N and the cursor is
(k + 1) mod N.  The cursor is a function of the number of `Schedule` calls alone, and
`ScheduleWriteBinlogTask` and `ScheduleWriteDBTask` leave it as it is. -/
theorem C10_round_robin (str_hash : String → size_t) (c : PikaReplClient) (evs : List Event)
    (func : TaskFunc) (arg : TaskArg)
    (h1 : 1 ≤ c.bg_workers_.length) (hsz : c.bg_workers_.length < SIZE_T_MOD)
    (h0 : c.next_avail_ = 0)
    (hok : 2 ≤ c.bg_workers_.length ∨ ∀ e ∈ evs, e.usesHash = false) :
    ∃ c1 w, run str_hash c evs = some c1 ∧
      c1.bg_workers_.length = c.bg_workers_.length ∧
      c1.next_avail_ = countSchedule evs % c.bg_workers_.length ∧
      c1.next_avail_ < c.bg_workers_.length ∧
      c1.bg_workers_[countSchedule evs % c.bg_workers_.length]? = some w ∧
      c1.Schedule func arg =
        some ⟨c1.bg_workers_.set (countSchedule evs % c.bg_workers_.length)
            ⟨w.queue ++ [⟨func, arg⟩], w.executed⟩,
          (countSchedule evs + 1) % c.bg_workers_.length⟩ ∧
      (∀ key res conn pd c2, c1.ScheduleWriteBinlogTask str_hash key res conn pd = some c2 →
        c2.next_avail_ = c1.next_avail_) ∧
      (∀ key argv item tn pid c2,
        c1.ScheduleWriteDBTask str_hash key argv item tn pid = some c2 →
        c2.next_avail_ = c1.next_avail_) := by
  obtain ⟨c1, hr, hl, hc, _⟩ := run_spec str_hash evs c hsz (by omega) hok
  rw [h0, Nat.zero_add] at hc
  have hlt : c1.next_avail_ < c1.bg_workers_.length := by
    rw [hc, hl]; exact Nat.mod_lt _ (by omega)
  obtain ⟨w, hw, hs⟩ := Schedule_spec c1 func arg hlt
  refine ⟨c1, w, hr, hl, hc, by omega, by rw [← hc]; exact hw, ?_,
    fun key res conn pd c2 h => ScheduleWriteBinlogTask_cursor str_hash c1 c2 key res conn pd h,
    fun key argv item tn pid c2 h =>
      ScheduleWriteDBTask_cursor str_hash c1 c2 key argv item tn pid h⟩
  rw [hs, hc, hl, Nat.mod_add_mod]

/-- C10 on a pool of three workers after four `Schedule` calls, a binlog call and a worker
turn: the next task goes to worker 4 mod 3 = 1 and the cursor becomes 2. -/
theorem C10_round_robin_witness :
    (1 ≤ (freshPool 3).bg_workers_.length ∧ (freshPool 3).bg_workers_.length < SIZE_T_MOD ∧
      (freshPool 3).next_avail_ = 0) ∧
    (∃ c1 w, run lenHash (freshPool 3)
        [.Schedule (.other 1) (.other 1), .Schedule (.other 2) (.other 2),
         .ScheduleWriteBinlogTask "t1:0" 1 2 3, .Schedule (.other 3) (.other 3),
         .WorkerRun 0, .Schedule (.other 4) (.other 4)] = some c1 ∧
      c1.next_avail_ = 1 ∧ c1.bg_workers_[1]? = some w ∧
      c1.Schedule (.other 5) (.other 5) =
        some ⟨c1.bg_workers_.set 1 ⟨w.queue ++ [⟨.other 5, .other 5⟩], w.executed⟩, 2⟩) := by
  refine ⟨by decide, ?_⟩
  obtain ⟨c1, w, hr, _, hc, _, hw, hs, _⟩ := C10_round_robin lenHash (freshPool 3)
    [.Schedule (.other 1) (.other 1), .Schedule (.other 2) (.other 2),
     .ScheduleWriteBinlogTask "t1:0" 1 2 3, .Schedule (.other 3) (.other 3),
     .WorkerRun 0, .Schedule (.other 4) (.other 4)] (.other 5) (.other 5)
    (by decide) (by decide) (by decide) (Or.inl (by decide))
  exact ⟨c1, w, hr, hc, hw, hs⟩

/-! ### Send operations -/

theorem wrapInt32_of_IsInt32 (x : Int) (h : IsInt32 x) : wrapInt32 x = x := by
  unfold IsInt32 INT_MIN INT_MAX at h
  unfold wrapInt32
  omega

/-- C6: for each of the four send operations, with `master_port`, `kPortShiftReplServer` and
their sum values of the type `int`: when serialisation succeeds with bytes `to_send` the
operation performs exactly one transport write, to
`(master_ip, master_port + kPortShiftReplServer)` as the server reports them in this call,
carrying exactly `to_send`, and it returns the status that write returned. -/
theorem C6_send_success (env : SendEnv) (server : PikaServer) (conf : PikaConf)
    (table_name : String) (partition_id : Nat) (boffset ack_start ack_end : BinlogOffset)
    (to_send : String)
    (hport : IsInt32 server.master_port) (hshift : IsInt32 env.kPortShiftReplServer)
    (hsum : IsInt32 (server.master_port + env.kPortShiftReplServer)) :
    (env.SerializeToString (SendMetaSync_request server conf) = some to_send →
      SendMetaSync env server conf =
        ⟨env.Write server.master_ip (server.master_port + env.kPortShiftReplServer) to_send,
          [⟨server.master_ip, server.master_port + env.kPortShiftReplServer, to_send⟩]⟩) ∧
    (env.SerializeToString
        (SendPartitionDBSync_request server table_name partition_id boffset) = some to_send →
      SendPartitionDBSync env server table_name partition_id boffset =
        ⟨env.Write server.master_ip (server.master_port + env.kPortShiftReplServer) to_send,
          [⟨server.master_ip, server.master_port + env.kPortShiftReplServer, to_send⟩]⟩) ∧
    (env.SerializeToString
        (SendPartitionTrySync_request server table_name partition_id boffset) = some to_send →
      SendPartitionTrySync env server table_name partition_id boffset =
        ⟨env.Write server.master_ip (server.master_port + env.kPortShiftReplServer) to_send,
          [⟨server.master_ip, server.master_port + env.kPortShiftReplServer, to_send⟩]⟩) ∧
    (env.SerializeToString
        (SendPartitionBinlogSyncAck_request table_name partition_id ack_start ack_end)
        = some to_send →
      SendPartitionBinlogSyncAck env server table_name partition_id ack_start ack_end =
        ⟨env.Write server.master_ip (server.master_port + env.kPortShiftReplServer) to_send,
          [⟨server.master_ip, server.master_port + env.kPortShiftReplServer, to_send⟩]⟩) ∧
    IsInt32 (server.master_port + env.kPortShiftReplServer) := by
  have _hp := hport
  have _hs := hshift
  have hw := wrapInt32_of_IsInt32 _ hsum
  refine ⟨?_, ?_, ?_, ?_, hsum⟩
  · intro h; simp [SendMetaSync, h, hw]
  · intro h; simp [SendPartitionDBSync, h, hw]
  · intro h; simp [SendPartitionTrySync, h, hw]
  · intro h; simp [SendPartitionBinlogSyncAck, h, hw]

/-- C6 where serialisation succeeds and the transport times out: `SendPartitionTrySync`
writes once to 10.0.0.1:11221 and returns the timeout. -/
theorem C6_send_success_witness :
    (IsInt32 sampleServer.master_port ∧ IsInt32 timeoutEnv.kPortShiftReplServer ∧
      IsInt32 (sampleServer.master_port + timeoutEnv.kPortShiftReplServer)) ∧
    timeoutEnv.SerializeToString (SendPartitionTrySync_request sampleServer "orders" 3 ⟨5, 1024⟩)
      = some "orders" ∧
    SendPartitionTrySync timeoutEnv sampleServer "orders" 3 ⟨5, 1024⟩ =
      ⟨⟨.kTimeout, "timeout"⟩, [⟨"10.0.0.1", 11221, "orders"⟩]⟩ :=
  ⟨by decide, rfl, (C6_send_success timeoutEnv sampleServer ⟨""⟩ "orders" 3 ⟨5, 1024⟩ ⟨5, 0⟩
    ⟨5, 1024⟩ "orders" (by decide) (by decide) (by decide)).2.2.1 rfl⟩

/-- C7: the request `SendMetaSync` builds has type kMetaSync, its node is the replica's own
(host, port), its auth is present exactly when masterauth is non-empty and then equals
masterauth, and no other variant (none of the fields carrying a partition or an offset) is
set. -/
theorem C7_meta_sync_request (server : PikaServer) (conf : PikaConf) :
    (SendMetaSync_request server conf).type = .kMetaSync ∧
    (∃ m, (SendMetaSync_request server conf).meta_sync = some m ∧
      m.node = ⟨server.host, server.port⟩ ∧
      (m.auth.isSome = true ↔ conf.masterauth ≠ "") ∧
      (∀ a, m.auth = some a → a = conf.masterauth)) ∧
    (SendMetaSync_request server conf).try_sync = none ∧
    (SendMetaSync_request server conf).db_sync = none ∧
    (SendMetaSync_request server conf).binlog_sync = none := by
  refine ⟨rfl, ⟨_, rfl, rfl, ?_, ?_⟩, rfl, rfl, rfl⟩
  · by_cases h : conf.masterauth = "" <;> simp [h]
  · intro a
    by_cases h : conf.masterauth = "" <;> simp [h]
    intro ha; exact ha.symm

/-- C8: the requests `SendPartitionTrySync` (type kTrySync) and `SendPartitionDBSync` (type
kDBSync) build carry the replica's own (host, port), the partition (table_name,
partition_id) and the offset (filenum, offset) of the arguments, only their own variant is
set, and their payloads agree field by field; the request `SendPartitionBinlogSyncAck`
builds (type kBinlogSync) carries table_name, partition_id, ack_range_start and
ack_range_end equal to its arguments. -/
theorem C8_partition_requests (server : PikaServer) (table_name : String)
    (partition_id : Nat) (boffset ack_start ack_end : BinlogOffset) :
    SendPartitionTrySync_request server table_name partition_id boffset =
      { type := .kTrySync, meta_sync := none,
        try_sync := some ⟨⟨server.host, server.port⟩, ⟨table_name, partition_id⟩,
          ⟨boffset.filenum, boffset.offset⟩⟩,
        db_sync := none, binlog_sync := none } ∧
    SendPartitionDBSync_request server table_name partition_id boffset =
      { type := .kDBSync, meta_sync := none, try_sync := none,
        db_sync := some ⟨⟨server.host, server.port⟩, ⟨table_name, partition_id⟩,
          ⟨boffset.filenum, boffset.offset⟩⟩,
        binlog_sync := none } ∧
    (∃ t d, (SendPartitionTrySync_request server table_name partition_id boffset).try_sync
          = some t ∧
        (SendPartitionDBSync_request server table_name partition_id boffset).db_sync
          = some d ∧
        t.node = d.node ∧ t.partition = d.partition ∧ t.binlog_offset = d.binlog_offset) ∧
    SendPartitionBinlogSyncAck_request table_name partition_id ack_start ack_end =
      { type := .kBinlogSync, meta_sync := none, try_sync := none, db_sync := none,
        binlog_sync := some ⟨table_name, partition_id,
          ⟨ack_start.filenum, ack_start.offset⟩, ⟨ack_end.filenum, ack_end.offset⟩⟩ } ∧
    (SendPartitionTrySync_request sampleServer "orders" 3 ⟨5, 1024⟩).try_sync.map
        (fun t => (t.partition, t.binlog_offset))
      = some (⟨"orders", 3⟩, ⟨5, 1024⟩) :=
  ⟨rfl, rfl, ⟨_, _, rfl, rfl, rfl, rfl, rfl⟩, rfl, rfl⟩

/-- C9 as stated fails: `SendPartitionBinlogSyncAck` called with ack_start = (1, 0) and
ack_end = (0, 0) builds and sends (one transport write) an acknowledgment whose
ack_range_end is below its ack_range_start. -/
theorem C9_ack_range_counterexample :
    (SendPartitionBinlogSyncAck timeoutEnv sampleServer "orders" 3 ⟨1, 0⟩ ⟨0, 0⟩).writes
      = [⟨"10.0.0.1", 11221, "orders"⟩] ∧
    (SendPartitionBinlogSyncAck_request "orders" 3 ⟨1, 0⟩ ⟨0, 0⟩).binlog_sync.map
        (fun b => decide (InnerMessage.BinlogOffset.le b.ack_range_start b.ack_range_end))
      = some false := by
  constructor
  · rfl
  · decide

/-- C9 amended: the acknowledgment `SendPartitionBinlogSyncAck` builds carries ack_start and
ack_end as passed, unchecked; its ack_range_end is at or above its ack_range_start in the
BinlogOffset order exactly when the caller's ack_end is at or above the caller's
ack_start. -/
theorem C9_ack_range_as_passed (table_name : String) (partition_id : Nat)
    (ack_start ack_end : BinlogOffset) :
    ∃ b, (SendPartitionBinlogSyncAck_request table_name partition_id ack_start
        ack_end).binlog_sync = some b ∧
      b.ack_range_start = ⟨ack_start.filenum, ack_start.offset⟩ ∧
      b.ack_range_end = ⟨ack_end.filenum, ack_end.offset⟩ ∧
      (InnerMessage.BinlogOffset.le b.ack_range_start b.ack_range_end ↔
        (ack_start.filenum < ack_end.filenum ∨
          (ack_start.filenum = ack_end.filenum ∧ ack_start.offset ≤ ack_end.offset))) :=
  ⟨_, rfl, rfl, rfl, Iff.rfl⟩

/-! ### Storage: the sort-key transform of doubles -/

open storage

theorem xor_all_ones (x : Nat) (hx : x < 2 ^ 64) :
    x ^^^ 0xffffffffffffffff = 2 ^ 64 - 1 - x := by
  have hm : (0xffffffffffffffff : Nat) = 2 ^ 64 - 1 := by norm_num
  have hs : 2 ^ 64 - 1 - x = 2 ^ 64 - (x + 1) := by omega
  rw [hm, hs]
  apply Nat.eq_of_testBit_eq
  intro i
  rw [Nat.testBit_xor, Nat.testBit_two_pow_sub_one, Nat.testBit_two_pow_sub_succ hx]
  by_cases hi : i < 64
  · simp [hi]
  · have hle : 2 ^ 64 ≤ 2 ^ i := Nat.pow_le_pow_right (by decide) (by omega)
    have hf : x.testBit i = false := Nat.testBit_lt_two_pow (by omega)
    simp [hi, hf]

theorem or_top_bit (x : Nat) (hx : x < 2 ^ 63) : x ||| 0x8000000000000000 = x + 2 ^ 63 := by
  have hm : (0x8000000000000000 : Nat) = 2 ^ 63 * 1 := by norm_num
  have h := Nat.mul_add_lt_is_or hx 1
  rw [hm, Nat.lor_comm, ← h]
  omega

theorem and_low_bits (u : Nat) : u &&& 0x7fffffffffffffff = u % 2 ^ 63 := by
  have hm : (0x7fffffffffffffff : Nat) = 2 ^ 63 - 1 := by norm_num
  rw [hm, Nat.and_pow_two_sub_one_eq_mod]

/-- `EncodeDoubleToUInt64` in arithmetic: patterns with the sign bit set are complemented,
the others get the top bit added. -/
theorem EncodeDoubleToUInt64_eq (x : Nat) (hx : x < 2 ^ 64) :
    EncodeDoubleToUInt64 x = if 2 ^ 63 ≤ x then 2 ^ 64 - 1 - x else x + 2 ^ 63 := by
  unfold EncodeDoubleToUInt64
  simp only [Nat.shiftRight_eq_div_pow]
  by_cases h : 2 ^ 63 ≤ x
  · have h1 : x / 2 ^ 63 = 1 := by omega
    rw [if_pos h1, if_pos h, xor_all_ones x hx]
  · have h1 : ¬ x / 2 ^ 63 = 1 := by omega
    rw [if_neg h1, if_neg h, or_top_bit x (by omega)]

/-- `DecodeDoubleFromUInt64` in arithmetic. -/
theorem DecodeDoubleFromUInt64_eq (u : Nat) (hu : u < 2 ^ 64) :
    DecodeDoubleFromUInt64 u = if u < 2 ^ 63 then 2 ^ 64 - 1 - u else u - 2 ^ 63 := by
  unfold DecodeDoubleFromUInt64
  simp only [Nat.shiftRight_eq_div_pow]
  by_cases h : u < 2 ^ 63
  · have h1 : u / 2 ^ 63 = 0 := by omega
    rw [if_pos h1, if_pos h, xor_all_ones u hu]
  · have h1 : ¬ u / 2 ^ 63 = 0 := by omega
    rw [if_neg h1, if_neg h, and_low_bits]
    omega

theorem EncodeDoubleToUInt64_lt (x : Nat) (hx : x < 2 ^ 64) : EncodeDoubleToUInt64 x < 2 ^ 64 := by
  rw [EncodeDoubleToUInt64_eq x hx]
  split <;> omega

theorem DecodeDoubleFromUInt64_lt (u : Nat) (hu : u < 2 ^ 64) :
    DecodeDoubleFromUInt64 u < 2 ^ 64 := by
  rw [DecodeDoubleFromUInt64_eq u hu]
  split <;> omega

theorem Decode_EncodeDouble (x : Nat) (hx : x < 2 ^ 64) :
    DecodeDoubleFromUInt64 (EncodeDoubleToUInt64 x) = x := by
  rw [DecodeDoubleFromUInt64_eq _ (EncodeDoubleToUInt64_lt x hx), EncodeDoubleToUInt64_eq x hx]
  by_cases h : 2 ^ 63 ≤ x
  · rw [if_pos h, if_pos (by omega)]; omega
  · rw [if_neg h, if_neg (by omega)]; omega

theorem Encode_DecodeDouble (u : Nat) (hu : u < 2 ^ 64) :
    EncodeDoubleToUInt64 (DecodeDoubleFromUInt64 u) = u := by
  rw [EncodeDoubleToUInt64_eq _ (DecodeDoubleFromUInt64_lt u hu), DecodeDoubleFromUInt64_eq u hu]
  by_cases h : u < 2 ^ 63
  · rw [if_pos h, if_pos (by omega)]; omega
  · rw [if_neg h, if_neg (by omega)]; omega

/-- C19: on 64-bit patterns the double sort-key transform is a bijection:
`DecodeDoubleFromUInt64(EncodeDoubleToUInt64(x)) = x` and
`EncodeDoubleToUInt64(DecodeDoubleFromUInt64(x)) = x` for every 64-bit pattern x, both
functions stay within 64 bits, and the top bit of the encoded value is the complement of
the sign bit of the input. -/
theorem C19_double_transform_bijection (x : Nat) (hx : x < 2 ^ 64) :
    DecodeDoubleFromUInt64 (EncodeDoubleToUInt64 x) = x ∧
    EncodeDoubleToUInt64 (DecodeDoubleFromUInt64 x) = x ∧
    EncodeDoubleToUInt64 x < 2 ^ 64 ∧ DecodeDoubleFromUInt64 x < 2 ^ 64 ∧
    EncodeDoubleToUInt64 x >>> 63 = 1 - x >>> 63 := by
  refine ⟨Decode_EncodeDouble x hx, Encode_DecodeDouble x hx, EncodeDoubleToUInt64_lt x hx,
    DecodeDoubleFromUInt64_lt x hx, ?_⟩
  rw [EncodeDoubleToUInt64_eq x hx]
  simp only [Nat.shiftRight_eq_div_pow]
  split <;> omega

/-- C19 at the pattern of 0.01. -/
theorem C19_double_transform_bijection_witness :
    (0x3F847AE147AE147B : Nat) < 2 ^ 64 ∧
    DecodeDoubleFromUInt64 (EncodeDoubleToUInt64 0x3F847AE147AE147B) = 0x3F847AE147AE147B ∧
    EncodeDoubleToUInt64 (DecodeDoubleFromUInt64 0x3F847AE147AE147B) = 0x3F847AE147AE147B :=
  ⟨by decide, (C19_double_transform_bijection 0x3F847AE147AE147B (by decide)).1,
    (C19_double_transform_bijection 0x3F847AE147AE147B (by decide)).2.1⟩

/-! ### Storage: the HNSW meta value -/

/-- The bytes `HnswMetaValue::Encode` produces, in order. -/
theorem Encode_bytes (v : HnswMetaValue) :
    v.Encode =
      [v.type_ % 256, v.vector_type_ % 256, v.stored_data_type_ % 256,
       v.dim_ % 256, v.dim_ / 2 ^ 8 % 256,
       v.distance_metric_ % 256,
       v.capacity_ % 256, v.capacity_ / 2 ^ 8 % 256, v.capacity_ / 2 ^ 16 % 256,
       v.capacity_ / 2 ^ 24 % 256,
       v.ef_construction_ % 256, v.ef_construction_ / 2 ^ 8 % 256,
       v.ef_construction_ / 2 ^ 16 % 256, v.ef_construction_ / 2 ^ 24 % 256,
       v.ef_runtime_ % 256, v.ef_runtime_ / 2 ^ 8 % 256, v.ef_runtime_ / 2 ^ 16 % 256,
       v.ef_runtime_ / 2 ^ 24 % 256,
       EncodeDoubleToUInt64 v.epislon_ % 256,
       EncodeDoubleToUInt64 v.epislon_ / 2 ^ 8 % 256,
       EncodeDoubleToUInt64 v.epislon_ / 2 ^ 16 % 256,
       EncodeDoubleToUInt64 v.epislon_ / 2 ^ 24 % 256,
       EncodeDoubleToUInt64 v.epislon_ / 2 ^ 32 % 256,
       EncodeDoubleToUInt64 v.epislon_ / 2 ^ 40 % 256,
       EncodeDoubleToUInt64 v.epislon_ / 2 ^ 48 % 256,
       EncodeDoubleToUInt64 v.epislon_ / 2 ^ 56 % 256,
       v.num_level_ % 256, v.num_level_ / 2 ^ 8 % 256] := by
  simp only [HnswMetaValue.Encode, kDefaultHnswMetaValueLength, EncodeFixed8, EncodeFixed16,
    EncodeFixed32, EncodeFixed64]
  generalize EncodeDoubleToUInt64 v.epislon_ = e
  simp only [Nat.reduceAdd, Nat.reduceMul, List.replicate, List.set_cons_zero,
    List.set_cons_succ]

/-- Decoding what `Encode` produced gives the value back. -/
theorem Decode_Encode (v : HnswMetaValue) (h : v.InRange) :
    HnswMetaValue.Decode v.Encode = some v := by
  obtain ⟨h1, h2, h3, h4, h5, h6, h7, h8, h9, h10⟩ := h
  have hE := EncodeDoubleToUInt64_lt v.epislon_ h9
  have hD := Decode_EncodeDouble v.epislon_ h9
  rw [Encode_bytes]
  generalize EncodeDoubleToUInt64 v.epislon_ = e at hE hD ⊢
  cases v with
  | mk t vt sd dim dm cap efc efr eps nl =>
    simp only at h1 h2 h3 h4 h5 h6 h7 h8 h9 h10 hD
    simp only [HnswMetaValue.Decode, kDefaultHnswMetaValueLength, DecodeFixed8, DecodeFixed16,
      DecodeFixed32, DecodeFixed64, byteAt, List.length_cons, List.length_nil, Nat.reduceAdd,
      Nat.reduceMul, Nat.lt_irrefl, if_false, List.getD_cons_zero, List.getD_cons_succ,
      Option.some.injEq, HnswMetaValue.mk.injEq]
    have he : (e / 2 ^ 32 % 256 % 256 + e / 2 ^ 40 % 256 % 256 * 2 ^ 8
        + e / 2 ^ 48 % 256 % 256 * 2 ^ 16 + e / 2 ^ 56 % 256 % 256 * 2 ^ 24) * 2 ^ 32
        + (e % 256 % 256 + e / 2 ^ 8 % 256 % 256 * 2 ^ 8 + e / 2 ^ 16 % 256 % 256 * 2 ^ 16
        + e / 2 ^ 24 % 256 % 256 * 2 ^ 24) = e := by omega
    rw [he, hD]
    refine ⟨?_, ?_, ?_, ?_, ?_, ?_, ?_, ?_, rfl, ?_⟩ <;> omega

/-! ### Storage: reading a buffer after a write -/

theorem byteAt_set (s : Bytes) (i x j : Nat) :
    byteAt (s.set i x) j = if j = i ∧ i < s.length then x % 256 else byteAt s j := by
  unfold byteAt
  rw [List.getD_eq_getElem?_getD, List.getD_eq_getElem?_getD, List.getElem?_set]
  by_cases h : i = j
  · subst h
    by_cases h2 : i < s.length
    · simp [h2]
    · simp [h2, List.getElem?_eq_none (Nat.le_of_not_lt h2)]
  · have h3 : ¬ j = i := fun e => h e.symm
    simp [h, h3]

theorem length_EncodeFixed8 (s : Bytes) (off x : Nat) :
    (EncodeFixed8 s off x).length = s.length := by
  simp [EncodeFixed8]

theorem length_EncodeFixed16 (s : Bytes) (off x : Nat) :
    (EncodeFixed16 s off x).length = s.length := by
  simp [EncodeFixed16]

theorem length_EncodeFixed32 (s : Bytes) (off x : Nat) :
    (EncodeFixed32 s off x).length = s.length := by
  simp [EncodeFixed32]

theorem length_EncodeFixed64 (s : Bytes) (off x : Nat) :
    (EncodeFixed64 s off x).length = s.length := by
  simp [EncodeFixed64]

theorem getElem?_EncodeFixed8 (s : Bytes) (off x j : Nat) (h : j ≠ off) :
    (EncodeFixed8 s off x)[j]? = s[j]? := by
  unfold EncodeFixed8
  rw [List.getElem?_set_ne (by omega)]

theorem getElem?_EncodeFixed16 (s : Bytes) (off x j : Nat) (h : j < off ∨ off + 1 < j) :
    (EncodeFixed16 s off x)[j]? = s[j]? := by
  unfold EncodeFixed16
  rw [List.getElem?_set_ne (by omega), List.getElem?_set_ne (by omega)]

theorem getElem?_EncodeFixed32 (s : Bytes) (off x j : Nat) (h : j < off ∨ off + 3 < j) :
    (EncodeFixed32 s off x)[j]? = s[j]? := by
  unfold EncodeFixed32
  rw [List.getElem?_set_ne (by omega), List.getElem?_set_ne (by omega),
    List.getElem?_set_ne (by omega), List.getElem?_set_ne (by omega)]

theorem getElem?_EncodeFixed64 (s : Bytes) (off x j : Nat) (h : j < off ∨ off + 7 < j) :
    (EncodeFixed64 s off x)[j]? = s[j]? := by
  unfold EncodeFixed64
  rw [List.getElem?_set_ne (by omega), List.getElem?_set_ne (by omega),
    List.getElem?_set_ne (by omega), List.getElem?_set_ne (by omega),
    List.getElem?_set_ne (by omega), List.getElem?_set_ne (by omega),
    List.getElem?_set_ne (by omega), List.getElem?_set_ne (by omega)]

theorem byteAt_EncodeFixed8 (s : Bytes) (off x j : Nat) (h : off < s.length) :
    byteAt (EncodeFixed8 s off x) j = if j = off then x % 256 else byteAt s j := by
  simp only [EncodeFixed8, byteAt_set, h, and_true, Nat.mod_mod]

theorem byteAt_EncodeFixed16 (s : Bytes) (off x j : Nat) (h : off + 1 < s.length) :
    byteAt (EncodeFixed16 s off x) j =
      if j = off then x % 256 else if j = off + 1 then x / 2 ^ 8 % 256 else byteAt s j := by
  have h0 : off < s.length := by omega
  simp only [EncodeFixed16, byteAt_set, List.length_set, h, h0, and_true, Nat.mod_mod]
  by_cases a : j = off + 1
  · have b : ¬ j = off := by omega
    simp [a]
  · simp [a]

theorem byteAt_EncodeFixed32 (s : Bytes) (off x j : Nat) (h : off + 3 < s.length) :
    byteAt (EncodeFixed32 s off x) j =
      if j = off then x % 256 else if j = off + 1 then x / 2 ^ 8 % 256
      else if j = off + 2 then x / 2 ^ 16 % 256
      else if j = off + 3 then x / 2 ^ 24 % 256 else byteAt s j := by
  have h0 : off < s.length := by omega
  have h1 : off + 1 < s.length := by omega
  have h2 : off + 2 < s.length := by omega
  simp only [EncodeFixed32, byteAt_set, List.length_set, h, h0, h1, h2, and_true, Nat.mod_mod]
  by_cases a0 : j = off
  · subst a0; simp
  by_cases a1 : j = off + 1
  · subst a1; simp
  by_cases a2 : j = off + 2
  · subst a2; simp
  by_cases a3 : j = off + 3
  · subst a3; simp
  simp [a0, a1, a2, a3]

theorem byteAt_EncodeFixed64 (s : Bytes) (off x j : Nat) (h : off + 7 < s.length) :
    byteAt (EncodeFixed64 s off x) j =
      if j = off then x % 256 else if j = off + 1 then x / 2 ^ 8 % 256
      else if j = off + 2 then x / 2 ^ 16 % 256
      else if j = off + 3 then x / 2 ^ 24 % 256
      else if j = off + 4 then x / 2 ^ 32 % 256
      else if j = off + 5 then x / 2 ^ 40 % 256
      else if j = off + 6 then x / 2 ^ 48 % 256
      else if j = off + 7 then x / 2 ^ 56 % 256 else byteAt s j := by
  have h0 : off < s.length := by omega
  have h1 : off + 1 < s.length := by omega
  have h2 : off + 2 < s.length := by omega
  have h3 : off + 3 < s.length := by omega
  have h4 : off + 4 < s.length := by omega
  have h5 : off + 5 < s.length := by omega
  have h6 : off + 6 < s.length := by omega
  simp only [EncodeFixed64, byteAt_set, List.length_set, h, h0, h1, h2, h3, h4, h5, h6,
    and_true, Nat.mod_mod]
  by_cases a0 : j = off
  · subst a0; simp
  by_cases a1 : j = off + 1
  · subst a1; simp
  by_cases a2 : j = off + 2
  · subst a2; simp
  by_cases a3 : j = off + 3
  · subst a3; simp
  by_cases a4 : j = off + 4
  · subst a4; simp
  by_cases a5 : j = off + 5
  · subst a5; simp
  by_cases a6 : j = off + 6
  · subst a6; simp
  by_cases a7 : j = off + 7
  · subst a7; simp
  simp [a0, a1, a2, a3, a4, a5, a6, a7]

/-! ### Storage: the setters of the parsed meta value -/

theorem Decode_some (s : Bytes) (hlen : 28 ≤ s.length) :
    HnswMetaValue.Decode s = some
      { type_ := byteAt s 0, vector_type_ := byteAt s 1, stored_data_type_ := byteAt s 2,
        dim_ := byteAt s 3 + byteAt s 4 * 2 ^ 8,
        distance_metric_ := byteAt s 5,
        capacity_ := byteAt s 6 + byteAt s 7 * 2 ^ 8 + byteAt s 8 * 2 ^ 16 + byteAt s 9 * 2 ^ 24,
        ef_construction_ :=
          byteAt s 10 + byteAt s 11 * 2 ^ 8 + byteAt s 12 * 2 ^ 16 + byteAt s 13 * 2 ^ 24,
        ef_runtime_ :=
          byteAt s 14 + byteAt s 15 * 2 ^ 8 + byteAt s 16 * 2 ^ 16 + byteAt s 17 * 2 ^ 24,
        epislon_ := DecodeDoubleFromUInt64
          ((byteAt s 22 + byteAt s 23 * 2 ^ 8 + byteAt s 24 * 2 ^ 16 + byteAt s 25 * 2 ^ 24)
              * 2 ^ 32
            + (byteAt s 18 + byteAt s 19 * 2 ^ 8 + byteAt s 20 * 2 ^ 16 + byteAt s 21 * 2 ^ 24)),
        num_level_ := byteAt s 26 + byteAt s 27 * 2 ^ 8 } := by
  have h : ¬ s.length < kDefaultHnswMetaValueLength := by
    simp only [kDefaultHnswMetaValueLength]; omega
  simp only [HnswMetaValue.Decode, h, if_false, DecodeFixed8, DecodeFixed16, DecodeFixed32,
    DecodeFixed64, Nat.reduceAdd]

theorem Decode_SetCapacity (s : Bytes) (x : Nat) (hlen : 28 ≤ s.length) (hx : x < 2 ^ 32) :
    HnswMetaValue.Decode (EncodeFixed32 s 6 x) =
      (HnswMetaValue.Decode s).map (fun d => { d with capacity_ := x }) := by
  rw [Decode_some s hlen, Decode_some _ (by rw [length_EncodeFixed32]; exact hlen)]
  simp only [byteAt_EncodeFixed32 s 6 x _ (by omega), Option.map_some', Nat.reduceAdd,
    Nat.reduceEqDiff, if_false, if_true, Option.some.injEq, HnswMetaValue.mk.injEq, true_and,
    and_true]
  omega

theorem Decode_SetEpislon (s : Bytes) (x : Nat) (hlen : 28 ≤ s.length) (hx : x < 2 ^ 64) :
    HnswMetaValue.Decode (EncodeFixed64 s 18 (EncodeDoubleToUInt64 x)) =
      (HnswMetaValue.Decode s).map (fun d => { d with epislon_ := x }) := by
  have hE := EncodeDoubleToUInt64_lt x hx
  have hD := Decode_EncodeDouble x hx
  generalize EncodeDoubleToUInt64 x = e at hE hD ⊢
  rw [Decode_some s hlen, Decode_some _ (by rw [length_EncodeFixed64]; exact hlen)]
  simp only [byteAt_EncodeFixed64 s 18 e _ (by omega), Option.map_some', Nat.reduceAdd,
    Nat.reduceEqDiff, if_false, if_true, Option.some.injEq, HnswMetaValue.mk.injEq, true_and,
    and_true]
  have he : (e / 2 ^ 32 % 256 + e / 2 ^ 40 % 256 * 2 ^ 8 + e / 2 ^ 48 % 256 * 2 ^ 16
      + e / 2 ^ 56 % 256 * 2 ^ 24) * 2 ^ 32
      + (e % 256 + e / 2 ^ 8 % 256 * 2 ^ 8 + e / 2 ^ 16 % 256 * 2 ^ 16
      + e / 2 ^ 24 % 256 * 2 ^ 24) = e := by omega
  rw [he, hD]

theorem Decode_SetEfConstruction (s : Bytes) (x : Nat) (hlen : 28 ≤ s.length)
    (hx : x < 2 ^ 32) :
    HnswMetaValue.Decode (EncodeFixed32 s 10 x) =
      (HnswMetaValue.Decode s).map (fun d => { d with ef_construction_ := x }) := by
  rw [Decode_some s hlen, Decode_some _ (by rw [length_EncodeFixed32]; exact hlen)]
  simp only [byteAt_EncodeFixed32 s 10 x _ (by omega), Option.map_some', Nat.reduceAdd,
    Nat.reduceEqDiff, if_false, if_true, Option.some.injEq, HnswMetaValue.mk.injEq, true_and,
    and_true]
  omega

theorem Decode_SetEfRuntime (s : Bytes) (x : Nat) (hlen : 28 ≤ s.length) (hx : x < 2 ^ 32) :
    HnswMetaValue.Decode (EncodeFixed32 s 14 x) =
      (HnswMetaValue.Decode s).map (fun d => { d with ef_runtime_ := x }) := by
  rw [Decode_some s hlen, Decode_some _ (by rw [length_EncodeFixed32]; exact hlen)]
  simp only [byteAt_EncodeFixed32 s 14 x _ (by omega), Option.map_some', Nat.reduceAdd,
    Nat.reduceEqDiff, if_false, if_true, Option.some.injEq, HnswMetaValue.mk.injEq, true_and,
    and_true]
  omega

theorem Decode_SetNumLevel (s : Bytes) (x : Nat) (hlen : 28 ≤ s.length) (hx : x < 2 ^ 16) :
    HnswMetaValue.Decode (EncodeFixed16 s 26 x) =
      (HnswMetaValue.Decode s).map (fun d => { d with num_level_ := x }) := by
  rw [Decode_some s hlen, Decode_some _ (by rw [length_EncodeFixed16]; exact hlen)]
  simp only [byteAt_EncodeFixed16 s 26 x _ (by omega), Option.map_some', Nat.reduceAdd,
    Nat.reduceEqDiff, if_false, if_true, Option.some.injEq, HnswMetaValue.mk.injEq, true_and,
    and_true]
  omega

theorem Decode_SetVectorType (s : Bytes) (x : Nat) (hlen : 28 ≤ s.length) (hx : x < 2 ^ 8) :
    HnswMetaValue.Decode (EncodeFixed8 s 1 (x % 2 ^ 8)) =
      (HnswMetaValue.Decode s).map (fun d => { d with vector_type_ := x }) := by
  rw [Decode_some s hlen, Decode_some _ (by rw [length_EncodeFixed8]; exact hlen)]
  simp only [byteAt_EncodeFixed8 s 1 _ _ (by omega), Option.map_some', Nat.reduceAdd,
    Nat.reduceEqDiff, if_false, if_true, Option.some.injEq, HnswMetaValue.mk.injEq, true_and,
    and_true]
  omega

theorem Decode_SetDistanceMetric (s : Bytes) (x : Nat) (hlen : 28 ≤ s.length)
    (hx : x < 2 ^ 8) :
    HnswMetaValue.Decode (EncodeFixed8 s 5 (x % 2 ^ 8)) =
      (HnswMetaValue.Decode s).map (fun d => { d with distance_metric_ := x }) := by
  rw [Decode_some s hlen, Decode_some _ (by rw [length_EncodeFixed8]; exact hlen)]
  simp only [byteAt_EncodeFixed8 s 5 _ _ (by omega), Option.map_some', Nat.reduceAdd,
    Nat.reduceEqDiff, if_false, if_true, Option.some.injEq, HnswMetaValue.mk.injEq, true_and,
    and_true]
  omega

/-- What `SetDim` leaves in the string: the dim slot holds `dim mod 256`. -/
theorem Decode_SetDim (s : Bytes) (x : Nat) (hlen : 28 ≤ s.length) :
    HnswMetaValue.Decode (EncodeFixed16 s 3 (x % 2 ^ 8)) =
      (HnswMetaValue.Decode s).map (fun d => { d with dim_ := x % 256 }) := by
  rw [Decode_some s hlen, Decode_some _ (by rw [length_EncodeFixed16]; exact hlen)]
  simp only [byteAt_EncodeFixed16 s 3 _ _ (by omega), Option.map_some', Nat.reduceAdd,
    Nat.reduceEqDiff, if_false, if_true, Option.some.injEq, HnswMetaValue.mk.injEq, true_and,
    and_true]
  omega

/-! ### Storage: the claims on the HNSW meta value -/

/-- C13: for every HnswMetaValue (members within their C++ types, enum types one byte wide)
`Encode` returns exactly `kDefaultHnswMetaValueLength` = 28 bytes: type at byte 0,
vector_type at 1, stored_data_type at 2, dim in bytes 3-4, distance metric at 5, capacity in
6-9, ef_construction in 10-13, ef_runtime in 14-17, the `EncodeDoubleToUInt64` image of
epsilon in 18-25 and num_level in 26-27, every multi-byte integer least significant byte
first. -/
theorem C13_Encode_layout (v : HnswMetaValue) (h : v.InRange) :
    v.Encode.length = kDefaultHnswMetaValueLength ∧ kDefaultHnswMetaValueLength = 28 ∧
    v.Encode =
      [v.type_, v.vector_type_, v.stored_data_type_,
       v.dim_ % 256, v.dim_ / 2 ^ 8 % 256,
       v.distance_metric_,
       v.capacity_ % 256, v.capacity_ / 2 ^ 8 % 256, v.capacity_ / 2 ^ 16 % 256,
       v.capacity_ / 2 ^ 24 % 256,
       v.ef_construction_ % 256, v.ef_construction_ / 2 ^ 8 % 256,
       v.ef_construction_ / 2 ^ 16 % 256, v.ef_construction_ / 2 ^ 24 % 256,
       v.ef_runtime_ % 256, v.ef_runtime_ / 2 ^ 8 % 256, v.ef_runtime_ / 2 ^ 16 % 256,
       v.ef_runtime_ / 2 ^ 24 % 256,
       EncodeDoubleToUInt64 v.epislon_ % 256,
       EncodeDoubleToUInt64 v.epislon_ / 2 ^ 8 % 256,
       EncodeDoubleToUInt64 v.epislon_ / 2 ^ 16 % 256,
       EncodeDoubleToUInt64 v.epislon_ / 2 ^ 24 % 256,
       EncodeDoubleToUInt64 v.epislon_ / 2 ^ 32 % 256,
       EncodeDoubleToUInt64 v.epislon_ / 2 ^ 40 % 256,
       EncodeDoubleToUInt64 v.epislon_ / 2 ^ 48 % 256,
       EncodeDoubleToUInt64 v.epislon_ / 2 ^ 56 % 256,
       v.num_level_ % 256, v.num_level_ / 2 ^ 8 % 256] := by
  obtain ⟨h1, h2, h3, _, h5, _⟩ := h
  have e1 : v.type_ % 256 = v.type_ := Nat.mod_eq_of_lt h1
  have e2 : v.vector_type_ % 256 = v.vector_type_ := Nat.mod_eq_of_lt h2
  have e3 : v.stored_data_type_ % 256 = v.stored_data_type_ := Nat.mod_eq_of_lt h3
  have e5 : v.distance_metric_ % 256 = v.distance_metric_ := Nat.mod_eq_of_lt h5
  refine ⟨?_, rfl, ?_⟩
  · rw [Encode_bytes]; rfl
  · rw [Encode_bytes, e1, e2, e3, e5]

/-- C13 at the sample meta value. -/
theorem C13_Encode_layout_witness :
    sampleMeta.InRange ∧ sampleMeta.Encode.length = 28 ∧
    sampleMeta.Encode =
      [9, 1, 2, 128, 0, 1, 32, 161, 7, 0, 200, 0, 0, 0, 10, 0, 0, 0,
       123, 20, 174, 71, 225, 122, 132, 191, 3, 0] :=
  ⟨by decide, (C13_Encode_layout sampleMeta (by decide)).1,
    (C13_Encode_layout sampleMeta (by decide)).2.2.trans (by decide)⟩

/-- C14 (round trip): for every HnswMetaValue v (members within their C++ types, epsilon a
64-bit pattern) `Decode` of `v.Encode()` succeeds and yields type, vector_type,
stored_data_type, dim, distance_metric, capacity, ef_construction, ef_runtime, epsilon and
num_level equal to those of v. -/
theorem C14_Encode_Decode_round_trip (v : HnswMetaValue) (h : v.InRange) :
    HnswMetaValue.Decode v.Encode = some v :=
  Decode_Encode v h

/-- C14 at the sample meta value. -/
theorem C14_Encode_Decode_round_trip_witness :
    sampleMeta.InRange ∧ HnswMetaValue.Decode sampleMeta.Encode = some sampleMeta :=
  ⟨by decide, C14_Encode_Decode_round_trip sampleMeta (by decide)⟩

/-- C15 fails on the code: the constructor of `ParsedHnswMetaValue` never reads the distance
metric and reads capacity, ef_construction, ef_runtime, epsilon and num_level at offsets 5,
9, 13, 17 and 21 instead of 6, 10, 14, 18 and 26.  On the encoding of the sample value its
getters return capacity 128000001, ef_construction 51200, ef_runtime 2560, another epsilon
and num_level 57671, where `HnswMetaValue::Decode` returns 500000, 200, 10, the pattern of
0.01 and 3. -/
theorem C15_parsed_getters_diverge :
    ParsedHnswMetaValue.New sampleMeta.Encode = some sampleParsed ∧
    HnswMetaValue.Decode sampleMeta.Encode = some sampleMeta ∧
    sampleParsed.GetDistanceMetric = none ∧ sampleMeta.distance_metric_ = 1 ∧
    sampleParsed.GetCapacity = 128000001 ∧ sampleMeta.capacity_ = 500000 ∧
    sampleParsed.GetEfConstruction = 51200 ∧ sampleMeta.ef_construction_ = 200 ∧
    sampleParsed.GetEfRuntime = 2560 ∧ sampleMeta.ef_runtime_ = 10 ∧
    sampleParsed.GetEpislon = 322818021289917184 ∧
    sampleMeta.epislon_ = 4576918229304087675 ∧
    sampleParsed.GetNumLevel = 57671 ∧ sampleMeta.num_level_ = 3 := by
  decide

/-- C16 fails on the code: `SetDim(768)` leaves 768 in the member, so `GetDim` returns 768,
but writes `(uint8_t)768 = 0` into the string: `DecodeFixed16` of bytes 3-4 is 0 and
`HnswMetaValue::Decode` of the string returns dim 0. -/
theorem C16_SetDim_truncates :
    (sampleParsed.SetDim 768).GetDim = 768 ∧
    (sampleParsed.SetDim 768).value_.map (fun s => DecodeFixed16 s 3) = some 0 ∧
    ((sampleParsed.SetDim 768).value_.bind HnswMetaValue.Decode).map (fun d => d.dim_)
      = some 0 := by
  decide

/-- C18 fails on the code: `DecodeSizedString` returns the encoded string but advances the
input by the size of the string, not by 4 + size.  After decoding the encoding of "a"
followed by "b", the value is "a" and the input is the last three bytes of the length
followed by "ab", not "b"; and of two strings encoded back to back the second decode reads
a length from the wrong place and runs past the end of the input. -/
theorem C18_DecodeSizedString_short_advance :
    EncodeSizedString [] [97] = [1, 0, 0, 0, 97] ∧
    DecodeSizedString (EncodeSizedString [] [97] ++ [98]) = some ([97], [0, 0, 0, 97, 98]) ∧
    DecodeSizedString (EncodeSizedString (EncodeSizedString [] [97, 98]) [99])
      = some ([97, 98], [0, 0, 97, 98, 1, 0, 0, 0, 99]) ∧
    (DecodeSizedString (EncodeSizedString (EncodeSizedString [] [97, 98]) [99])).bind
      (fun r => DecodeSizedString r.2) = none := by
  decide

/-- C17 (frame of the setters): let the parsed value point to a string of at least 28 bytes.
For each of `SetVectorType`, `SetDistanceMetric`, `SetCapacity`, `SetEfConstruction`,
`SetEfRuntime`, `SetEpislon` and `SetNumLevel` and every value x of the parameter type, after
the call the string has the same length, every byte outside the slot of the field (offsets
1, 5, 6-9, 10-13, 14-17, 18-25, 26-27) is unchanged, and `HnswMetaValue::Decode` of the string
returns what it returned before with x in the field that was set. -/
theorem C17_setters_frame (p : ParsedHnswMetaValue) (s : Bytes) (hp : p.value_ = some s)
    (hlen : 28 ≤ s.length) :
    (∃ d, HnswMetaValue.Decode s = some d) ∧
    (∀ x, x < 2 ^ 8 → ∃ s2, (p.SetVectorType x).value_ = some s2 ∧ s2.length = s.length ∧
      (∀ j, j ≠ 1 → s2[j]? = s[j]?) ∧
      HnswMetaValue.Decode s2 =
        (HnswMetaValue.Decode s).map (fun d => { d with vector_type_ := x })) ∧
    (∀ x, x < 2 ^ 8 → ∃ s2, (p.SetDistanceMetric x).value_ = some s2 ∧ s2.length = s.length ∧
      (∀ j, j ≠ 5 → s2[j]? = s[j]?) ∧
      HnswMetaValue.Decode s2 =
        (HnswMetaValue.Decode s).map (fun d => { d with distance_metric_ := x })) ∧
    (∀ x, x < 2 ^ 32 → ∃ s2, (p.SetCapacity x).value_ = some s2 ∧ s2.length = s.length ∧
      (∀ j, j < 6 ∨ 9 < j → s2[j]? = s[j]?) ∧
      HnswMetaValue.Decode s2 =
        (HnswMetaValue.Decode s).map (fun d => { d with capacity_ := x })) ∧
    (∀ x, x < 2 ^ 32 → ∃ s2, (p.SetEfConstruction x).value_ = some s2 ∧
      s2.length = s.length ∧ (∀ j, j < 10 ∨ 13 < j → s2[j]? = s[j]?) ∧
      HnswMetaValue.Decode s2 =
        (HnswMetaValue.Decode s).map (fun d => { d with ef_construction_ := x })) ∧
    (∀ x, x < 2 ^ 32 → ∃ s2, (p.SetEfRuntime x).value_ = some s2 ∧ s2.length = s.length ∧
      (∀ j, j < 14 ∨ 17 < j → s2[j]? = s[j]?) ∧
      HnswMetaValue.Decode s2 =
        (HnswMetaValue.Decode s).map (fun d => { d with ef_runtime_ := x })) ∧
    (∀ x, x < 2 ^ 64 → ∃ s2, (p.SetEpislon x).value_ = some s2 ∧ s2.length = s.length ∧
      (∀ j, j < 18 ∨ 25 < j → s2[j]? = s[j]?) ∧
      HnswMetaValue.Decode s2 =
        (HnswMetaValue.Decode s).map (fun d => { d with epislon_ := x })) ∧
    (∀ x, x < 2 ^ 16 → ∃ s2, (p.SetNumLevel x).value_ = some s2 ∧ s2.length = s.length ∧
      (∀ j, j < 26 ∨ 27 < j → s2[j]? = s[j]?) ∧
      HnswMetaValue.Decode s2 =
        (HnswMetaValue.Decode s).map (fun d => { d with num_level_ := x })) := by
  refine ⟨⟨_, Decode_some s hlen⟩, ?_, ?_, ?_, ?_, ?_, ?_, ?_⟩
  · intro x hx
    exact ⟨EncodeFixed8 s 1 (x % 2 ^ 8), by simp [ParsedHnswMetaValue.SetVectorType, hp],
      length_EncodeFixed8 _ _ _, fun j hj => getElem?_EncodeFixed8 s 1 _ j hj,
      Decode_SetVectorType s x hlen hx⟩
  · intro x hx
    exact ⟨EncodeFixed8 s 5 (x % 2 ^ 8), by simp [ParsedHnswMetaValue.SetDistanceMetric, hp],
      length_EncodeFixed8 _ _ _, fun j hj => getElem?_EncodeFixed8 s 5 _ j hj,
      Decode_SetDistanceMetric s x hlen hx⟩
  · intro x hx
    exact ⟨EncodeFixed32 s 6 x, by simp [ParsedHnswMetaValue.SetCapacity, hp],
      length_EncodeFixed32 _ _ _, fun j hj => getElem?_EncodeFixed32 s 6 _ j (by omega),
      Decode_SetCapacity s x hlen hx⟩
  · intro x hx
    exact ⟨EncodeFixed32 s 10 x, by simp [ParsedHnswMetaValue.SetEfConstruction, hp],
      length_EncodeFixed32 _ _ _, fun j hj => getElem?_EncodeFixed32 s 10 _ j (by omega),
      Decode_SetEfConstruction s x hlen hx⟩
  · intro x hx
    exact ⟨EncodeFixed32 s 14 x, by simp [ParsedHnswMetaValue.SetEfRuntime, hp],
      length_EncodeFixed32 _ _ _, fun j hj => getElem?_EncodeFixed32 s 14 _ j (by omega),
      Decode_SetEfRuntime s x hlen hx⟩
  · intro x hx
    exact ⟨EncodeFixed64 s 18 (EncodeDoubleToUInt64 x),
      by simp [ParsedHnswMetaValue.SetEpislon, hp],
      length_EncodeFixed64 _ _ _, fun j hj => getElem?_EncodeFixed64 s 18 _ j (by omega),
      Decode_SetEpislon s x hlen hx⟩
  · intro x hx
    exact ⟨EncodeFixed16 s 26 x, by simp [ParsedHnswMetaValue.SetNumLevel, hp],
      length_EncodeFixed16 _ _ _, fun j hj => getElem?_EncodeFixed16 s 26 _ j (by omega),
      Decode_SetNumLevel s x hlen hx⟩

/-- C17 at the parsed encoding of the sample value: `SetCapacity(1000)` changes bytes 6-9
only and the decoded capacity becomes 1000. -/
theorem C17_setters_frame_witness :
    (sampleParsed.value_ = some sampleMeta.Encode ∧ 28 ≤ sampleMeta.Encode.length) ∧
    (∀ x, x < 2 ^ 32 → ∃ s2, (sampleParsed.SetCapacity x).value_ = some s2 ∧
      s2.length = sampleMeta.Encode.length ∧
      (∀ j, j < 6 ∨ 9 < j → s2[j]? = sampleMeta.Encode[j]?) ∧
      HnswMetaValue.Decode s2 =
        (HnswMetaValue.Decode sampleMeta.Encode).map (fun d => { d with capacity_ := x })) ∧
    (sampleParsed.SetCapacity 1000).value_ =
      some [9, 1, 2, 128, 0, 1, 232, 3, 0, 0, 200, 0, 0, 0, 10, 0, 0, 0,
        123, 20, 174, 71, 225, 122, 132, 191, 3, 0] :=
  ⟨⟨rfl, by decide⟩,
    (C17_setters_frame sampleParsed sampleMeta.Encode rfl (by decide)).2.2.2.1, by decide⟩

/-! ### Construction of the pool -/

theorem New_some (n : Int) (h1 : 1 ≤ n) (h2 : 2 * n ≤ INT_MAX) :
    ∃ c, PikaReplClient.New n = some c ∧ (c.bg_workers_.length : Int) = 2 * n ∧
      c.next_avail_ = 0 := by
  have hmax : ¬ (2 * n < INT_MIN ∨ INT_MAX < 2 * n) := by
    unfold INT_MAX at h2
    unfold INT_MIN INT_MAX
    omega
  refine ⟨⟨List.replicate (2 * n).toNat ⟨[], []⟩, 0⟩, ?_, ?_, rfl⟩
  · simp only [PikaReplClient.New, hmax, if_false]
  · simp only [List.length_replicate]
    omega

/-- C11: for every configured sync_thread_num n >= 1 whose double is an `int` (the bound
`2 * sync_thread_num` of the constructor's loop is an `int` product), the constructor
builds a pool of exactly 2*n workers, an even number, with the cursor at 0; for every key
and either value of upper_half the modulus of `GetHashIndex` is non-zero and the index is a
valid position in `bg_workers_` (below 2*n), so `ScheduleWriteBinlogTask` and
`ScheduleWriteDBTask` find their worker and have a result. -/
theorem C11_pool_construction (str_hash : String → size_t) (n : Int) (key : String)
    (upper_half : Bool) (res conn pd argv item : Ptr) (tn : String) (pid : Nat)
    (h1 : 1 ≤ n) (h2 : 2 * n ≤ INT_MAX) :
    ∃ c, PikaReplClient.New n = some c ∧
      (c.bg_workers_.length : Int) = 2 * n ∧
      c.bg_workers_.length % 2 = 0 ∧
      c.bg_workers_.length / 2 ≠ 0 ∧
      (∃ i w, GetHashIndex str_hash c key upper_half = some i ∧
        (i : Int) < 2 * n ∧ c.bg_workers_[i]? = some w) ∧
      (∃ c2, c.ScheduleWriteBinlogTask str_hash key res conn pd = some c2) ∧
      (∃ c2, c.ScheduleWriteDBTask str_hash key argv item tn pid = some c2) := by
  obtain ⟨c, hc, hl, _⟩ := New_some n h1 h2
  have hge : 2 ≤ c.bg_workers_.length := by omega
  have hsz : c.bg_workers_.length < SIZE_T_MOD := by
    unfold INT_MAX at h2
    simp only [SIZE_T_MOD]
    omega
  obtain ⟨i, hi, hlt, _, _⟩ := GetHashIndex_lt str_hash c key upper_half hge hsz
  obtain ⟨_, _, _, _, _, hb⟩ :=
    ScheduleWriteBinlogTask_spec str_hash c key res conn pd hge hsz
  obtain ⟨_, _, _, _, _, hd⟩ :=
    ScheduleWriteDBTask_spec str_hash c key argv item tn pid hge hsz
  exact ⟨c, hc, hl, by omega, by omega,
    ⟨i, _, hi, by omega, List.getElem?_eq_getElem hlt⟩, ⟨_, hb⟩, ⟨_, hd⟩⟩

/-- C11 at sync_thread_num = 3: six idle workers, as `freshPool 6`. -/
theorem C11_pool_construction_witness :
    ((1 : Int) ≤ 3 ∧ 2 * (3 : Int) ≤ INT_MAX) ∧
    PikaReplClient.New 3 = some (freshPool 6) ∧
    (∃ c, PikaReplClient.New 3 = some c ∧ (c.bg_workers_.length : Int) = 2 * 3) := by
  refine ⟨by decide, by decide, ?_⟩
  obtain ⟨c, hc, hl, _⟩ := C11_pool_construction lenHash 3 "t1:0" true 1 2 3 4 5 "t1" 0
    (by decide) (by decide)
  exact ⟨c, hc, hl⟩

/-! ### Append and apply on different workers -/

end Pika
